import Mathlib

/-!
# Verification of the Kerr black-hole renderer's numeric core

Shallow embedding of the physics/integration core of the WebGL Kerr
black-hole simulation (JavaScript `kerr-metric.js`, `accretion-disk.js`
and the GLSL geodesic integrator / shader includes).

Conventions of the embedding:
* IEEE floating point arithmetic is idealized as exact real arithmetic
  (`ℝ`).  In particular the GLSL macro `PI = 3.14159265359` (the float
  approximation of π) is modeled as `Real.pi`, and `NaN` has no
  counterpart: the source test `r != r` is carried along literally and is
  provably false over `ℝ`.
* `Math.sqrt` / GLSL `sqrt` is `Real.sqrt`, `Math.pow x y` / GLSL `pow`
  is real exponentiation `x ^ (y : ℝ)`, `Math.atan2 y x` / GLSL
  `atan(y,x)` is the argument of the complex number `x + i·y` (both have
  range `(-π, π]`).
* GLSL `vec3` is the structure `Vec3` below; `clamp`, `sign`,
  `safeSqrt` are transcribed from the sources.
* The JavaScript `KerrMetric` class methods become functions taking the
  fields `M`, `a` explicitly; `this.a2 = a*a` is inlined.
-/

noncomputable section

open Real

/-- `#define EPSILON 1e-6` (utils.glsl) and `export const EPSILON = 1e-6`
(config). -/
def EPSILON : ℝ := 1 / 1000000

/-- GLSL `clamp(x, lo, hi) = min(max(x, lo), hi)`. -/
def glslClamp (x lo hi : ℝ) : ℝ := min (max x lo) hi

/-- GLSL `sign`: 1 for positive, -1 for negative, 0 at 0. -/
def glslSign (x : ℝ) : ℝ := if 0 < x then 1 else if x < 0 then -1 else 0

/-- utils.glsl `safeSqrt(x) = sqrt(max(x, 0.0))`. -/
def safeSqrt (x : ℝ) : ℝ := Real.sqrt (max x 0)

/-- GLSL `vec3`. -/
structure Vec3 where
  x : ℝ
  y : ℝ
  z : ℝ

namespace Vec3

def add (u v : Vec3) : Vec3 := ⟨u.x + v.x, u.y + v.y, u.z + v.z⟩

def smul (c : ℝ) (v : Vec3) : Vec3 := ⟨c * v.x, c * v.y, c * v.z⟩

def dot (u v : Vec3) : ℝ := u.x * v.x + u.y * v.y + u.z * v.z

def cross (u v : Vec3) : Vec3 :=
  ⟨u.y * v.z - u.z * v.y, u.z * v.x - u.x * v.z, u.x * v.y - u.y * v.x⟩

def length (v : Vec3) : ℝ := Real.sqrt (dot v v)

/-- GLSL `normalize(v) = v / length(v)` (componentwise division). -/
def normalize (v : Vec3) : Vec3 :=
  ⟨v.x / length v, v.y / length v, v.z / length v⟩

end Vec3

instance : Add Vec3 := ⟨Vec3.add⟩

instance : SMul ℝ Vec3 := ⟨Vec3.smul⟩

/-- `Math.atan2 y x` (also GLSL two-argument `atan`): the argument of the
complex number `x + i·y`, with range `(-π, π]` and `atan2 0 0 = 0`. -/
def atan2 (y x : ℝ) : ℝ := Complex.arg ⟨x, y⟩

/-! ## Kerr metric functions (kerr-metric.js / kerr-metric.glsl)

The JavaScript and GLSL implementations compute the same expressions
(the GLSL ones via `safeSqrt`, which agrees with
`Math.sqrt(Math.max(0, ·))`); they are embedded once. -/

/-- `sigma(r, theta)` = Σ = r² + a²cos²θ. -/
def sigma (r theta a : ℝ) : ℝ :=
  r * r + a * a * Real.cos theta * Real.cos theta

/-- `delta(r)` = Δ = r² - 2Mr + a². -/
def delta (M a r : ℝ) : ℝ := r * r - 2 * M * r + a * a

/-- `eventHorizonRadius()` = M + √(max(0, M² - a²)). -/
def eventHorizonRadius (M a : ℝ) : ℝ :=
  M + Real.sqrt (max 0 (M * M - a * a))

/-- `innerHorizonRadius()` = M - √(max(0, M² - a²)). -/
def innerHorizonRadius (M a : ℝ) : ℝ :=
  M - Real.sqrt (max 0 (M * M - a * a))

/-- `ergosphereRadius(theta)` = M + √(max(0, M² - a²cos²θ)). -/
def ergosphereRadius (M a theta : ℝ) : ℝ :=
  M + Real.sqrt (max 0 (M * M - a * a * Real.cos theta * Real.cos theta))

/-- The intermediate `Z1` of the Bardeen–Press–Teukolsky ISCO formula, as a
function of the dimensionless spin `chi = a/M`:
`Z1 = 1 + (1-χ²)^(1/3) * ((1+χ)^(1/3) + |1-χ|^(1/3))`. -/
def Z1def (chi : ℝ) : ℝ :=
  1 + (1 - chi * chi) ^ ((1 : ℝ) / 3) *
    ((1 + chi) ^ ((1 : ℝ) / 3) + |1 - chi| ^ ((1 : ℝ) / 3))

/-- `Z2 = √(3χ² + Z1²)`. -/
def Z2def (chi : ℝ) : ℝ :=
  Real.sqrt (3 * (chi * chi) + Z1def chi * Z1def chi)

/-- The square-root term `√((3 - Z1)(3 + Z1 + 2 Z2))` shared by the
prograde and retrograde ISCO formulas. -/
def iscoSqrtTerm (chi : ℝ) : ℝ :=
  Real.sqrt ((3 - Z1def chi) * (3 + Z1def chi + 2 * Z2def chi))

/-- Dimensionless prograde ISCO radius `3 + Z2 - √((3-Z1)(3+Z1+2Z2))`. -/
def iscoX (chi : ℝ) : ℝ := 3 + Z2def chi - iscoSqrtTerm chi

/-- Dimensionless retrograde ISCO radius `3 + Z2 + √((3-Z1)(3+Z1+2Z2))`. -/
def iscoRetroX (chi : ℝ) : ℝ := 3 + Z2def chi + iscoSqrtTerm chi

/-- `iscoRadius()` (prograde), kerr-metric.js lines 100-114. -/
def iscoRadius (M a : ℝ) : ℝ := M * iscoX (a / M)

/-- `iscoRadiusRetrograde()`, kerr-metric.js lines 121-134. -/
def iscoRadiusRetrograde (M a : ℝ) : ℝ := M * iscoRetroX (a / M)

/-- `photonSphereRadius()`: `3M` when `|a| < EPSILON`, else
`2M(1 + cos((2/3)·acos(-χ)))` with `χ = a/M` clamped to `[-1, 1]`. -/
def photonSphereRadius (M a : ℝ) : ℝ :=
  if |a| < EPSILON then 3 * M
  else 2 * M * (1 + Real.cos (2 / 3 * Real.arccos (-(max (-1) (min 1 (a / M))))))

/-- The stored parameter state of the JavaScript `KerrMetric` object:
`this.M`, `this.a`, `this.a2`. -/
structure KerrParams where
  M : ℝ
  a : ℝ
  a2 : ℝ

/-- The two configuration errors `setParameters` can throw. -/
inductive KerrError where
  | invalidMass : KerrError
  | invalidSpin : KerrError
deriving DecidableEq

/-- `KerrMetric.setParameters(mass, spin)` (kerr-metric.js lines 31-42),
modeled as a state transformer: a throw leaves the previously stored
fields untouched and reports the error; otherwise the given values are
stored unmodified (`this.M = mass; this.a = spin; this.a2 = spin*spin`). -/
def setParameters (old : KerrParams) (mass spin : ℝ) :
    KerrParams × Option KerrError :=
  if mass ≤ 0 then (old, some KerrError.invalidMass)
  else if mass < |spin| then (old, some KerrError.invalidSpin)
  else (⟨mass, spin, spin * spin⟩, none)

/-! ## Accretion disk (accretion-disk.js / accretion-disk.glsl) -/

/-- The fields of the JavaScript `AccretionDisk` object. -/
structure AccretionDisk where
  M : ℝ
  a : ℝ
  innerRadius : ℝ
  outerRadius : ℝ
  T0 : ℝ

/-- `AccretionDisk.calculateISCO()`: the same Bardeen–Press–Teukolsky
closed form as `KerrMetric.iscoRadius`. -/
def AccretionDisk.calculateISCO (d : AccretionDisk) : ℝ :=
  d.M * iscoX (d.a / d.M)

/-- The `AccretionDisk` constructor: `innerRadius` defaults to the ISCO
when not supplied. -/
def mkAccretionDisk (mass spin : ℝ) (innerRadius : Option ℝ)
    (outerRadius peakTemperature : ℝ) : AccretionDisk :=
  { M := mass, a := spin,
    innerRadius := innerRadius.getD (mass * iscoX (spin / mass)),
    outerRadius := outerRadius, T0 := peakTemperature }

/-- `AccretionDisk.temperature(r)` (accretion-disk.js lines 56-75):
Novikov–Thorne profile, zero at or inside the inner edge, capped at the
peak temperature `T0`. -/
def AccretionDisk.temperature (d : AccretionDisk) (r : ℝ) : ℝ :=
  if r ≤ d.innerRadius then 0
  else
    let x := r / d.M
    let xISCO := d.innerRadius / d.M
    let f := 1 - Real.sqrt (xISCO / x)
    if f ≤ 0 then 0
    else min (d.T0 * (1 / (x * x * x)) ^ ((1 : ℝ) / 4) * f ^ ((1 : ℝ) / 4)) d.T0

/-- `AccretionDisk.keplerianOmega(r)`: `√M / (r^1.5 + a√M)`. -/
def AccretionDisk.keplerianOmega (d : AccretionDisk) (r : ℝ) : ℝ :=
  Real.sqrt d.M / (r * Real.sqrt r + d.a * Real.sqrt d.M)

/-- `AccretionDisk.orbitalVelocity(r)` (accretion-disk.js lines 96-114):
proper orbital speed from the equatorial metric components, clamped
below the speed of light. -/
def AccretionDisk.orbitalVelocity (d : AccretionDisk) (r : ℝ) : ℝ :=
  let omega := d.keplerianOmega r
  let sig := r * r
  let del := r * r - 2 * d.M * r + d.a * d.a
  let gtt := -(1 - 2 * d.M * r / sig)
  let gtphi := -2 * d.a * d.M * r / sig
  let gphiphi := ((r * r + d.a * d.a) ^ 2 - d.a * d.a * del) / sig
  let denom := Real.sqrt (-gtt - 2 * gtphi * omega - gphiphi * omega * omega)
  if denom < 1e-10 then 0.999
  else min (Real.sqrt gphiphi * omega / denom) 0.999

/-- `AccretionDisk.dopplerFactor(r, viewAngle)` (accretion-disk.js lines
136-142): `g = 1 / (γ (1 - v cos θ_view))`. -/
def AccretionDisk.dopplerFactor (d : AccretionDisk) (r viewAngle : ℝ) : ℝ :=
  let v := d.orbitalVelocity r
  let gamma := 1 / Real.sqrt (1 - v * v)
  let vRadial := v * Real.cos viewAngle
  1 / (gamma * (1 - vRadial))

/-- GLSL `diskTemperature(r, rISCO, T0, M)` (accretion-disk.glsl lines
117-138): the plain Novikov–Thorne profile, with no ceiling. -/
def diskTemperature (r rISCO T0 M : ℝ) : ℝ :=
  if r ≤ rISCO then 0
  else
    let x := r / M
    let xISCO := rISCO / M
    let f := 1 - Real.sqrt (xISCO / x)
    if f ≤ 0 then 0
    else T0 * (1 / (x * x * x)) ^ ((1 : ℝ) / 4) * f ^ ((1 : ℝ) / 4)

/-- GLSL `diskTemperatureNT(r, rISCO, T0, M, a)` (accretion-disk.glsl
lines 144-178, the variant called by `diskEmission`): Page–Thorne
corrected profile with a `1.001·rISCO` cutoff, clamped to `[0, 50000]`.
The unused characteristic radii `x1, x2, x3` of the source are omitted. -/
def diskTemperatureNT (r rISCO T0 M a : ℝ) : ℝ :=
  if r ≤ rISCO * 1.001 then 0
  else
    let x := Real.sqrt (r / M)
    let xISCO := Real.sqrt (rISCO / M)
    let aStar := a / M
    let f := 1 - xISCO / x
    if f ≤ 0 then 0
    else
      let y := x * x
      let correction := 1 + aStar / (y * Real.sqrt y)
      let Q := f * correction
      glslClamp (T0 * (max Q 0 / (y * y * y)) ^ ((1 : ℝ) / 4)) 0 50000

/-- The `{r, theta, phi}` record returned by the JavaScript
`cartesianToBoyerLindquist`. -/
structure BL where
  r : ℝ
  theta : ℝ
  phi : ℝ

/-- The Boyer–Lindquist radius computed by the Kerr branch of
`cartesianToBoyerLindquist`: the positive root of
`r⁴ - (ρ² - a²) r² - a² z² = 0`, via
`b = ρ² - a²`, `c = -a² z²`, `r² = (b + √(max 0 (b² - 4c))) / 2`,
`r = √(max 0 r²)`. -/
def blRadius (a x y z : ℝ) : ℝ :=
  Real.sqrt (max 0 ((x * x + y * y + z * z - a * a +
    Real.sqrt (max 0 ((x * x + y * y + z * z - a * a) *
      (x * x + y * y + z * z - a * a) - 4 * (-(a * a) * (z * z))))) / 2))

/-- `KerrMetric.cartesianToBoyerLindquist(x, y, z)` (kerr-metric.js lines
217-244): Schwarzschild fast path below the spin epsilon, else the
Kerr-radius solve; θ from `acos` (clamped in the Kerr branch), φ from
`atan2` shifted into `[0, 2π)`. -/
def cartesianToBoyerLindquist (a x y z : ℝ) : BL :=
  if |a| < EPSILON then
    let r := Real.sqrt (x * x + y * y + z * z)
    let theta := if r > EPSILON then Real.arccos (z / r) else 0
    let phi0 := atan2 y x
    ⟨r, theta, if phi0 < 0 then phi0 + 2 * π else phi0⟩
  else
    let r := blRadius a x y z
    let theta := if r > EPSILON then
      Real.arccos (max (-1) (min 1 (z / r))) else 0
    let phi0 := atan2 y x
    ⟨r, theta, if phi0 < 0 then phi0 + 2 * π else phi0⟩

/-- `KerrMetric.boyerLindquistToCartesian(r, theta, phi)` (kerr-metric.js
lines 254-264). -/
def boyerLindquistToCartesian (a r theta phi : ℝ) : Vec3 :=
  ⟨Real.sqrt (r * r + a * a) * Real.sin theta * Real.cos phi,
   Real.sqrt (r * r + a * a) * Real.sin theta * Real.sin phi,
   r * Real.cos theta⟩

/-- Modelled from the spec: "the Schwarzschild case (a≈0) reduces to
plain spherical coordinates" — the plain spherical conversion the fast
path is claimed to coincide with. -/
def sphericalConversionSpec (x y z : ℝ) : BL :=
  let r := Real.sqrt (x * x + y * y + z * z)
  let theta := if r > EPSILON then Real.arccos (z / r) else 0
  let phi0 := atan2 y x
  ⟨r, theta, if phi0 < 0 then phi0 + 2 * π else phi0⟩

/-! ## Geodesic integrator (part_001, GLSL)

The integrator state `(r, theta, phi, pr, ptheta)` mutated in place by
the GLSL code becomes the structure `GeoState`; the `out`/`inout`
parameters become returned values.  Locals that the source computes but
never reads (`A` in `computeConservedQuantities`; `del` and `R` in
`momentumDerivatives`; the first, immediately overwritten `thetaHat` and
the unused `cosTheta` in the geodesic initializer; `sig` and `cosTheta`
in the escape branch) are omitted. -/

/-- The integrator state `(r, θ, φ, p_r, p_θ)`. -/
structure GeoState where
  r : ℝ
  theta : ℝ
  phi : ℝ
  pr : ℝ
  ptheta : ℝ

/-- utils.glsl `cartesianToSpherical(p)`: returns the zero triple below
the length epsilon, else spherical coordinates with `acos` clamped and
φ shifted into `[0, 2π)`. -/
def cartesianToSphericalG (p : Vec3) : BL :=
  if p.length < EPSILON then ⟨0, 0, 0⟩
  else
    let r := p.length
    let theta := Real.arccos (glslClamp (p.z / r) (-1) 1)
    let phi0 := atan2 p.y p.x
    ⟨r, theta, if phi0 < 0 then phi0 + 2 * π else phi0⟩

/-- utils.glsl `cartesianToBoyerLindquist(p, a)` (the GLSL variant of the
JS transform above: the fast path delegates to `cartesianToSpherical`,
and the radius solve uses `safeSqrt`). -/
def cartesianToBoyerLindquistG (p : Vec3) (a : ℝ) : BL :=
  if |a| < EPSILON then cartesianToSphericalG p
  else
    let b := p.x * p.x + p.y * p.y + p.z * p.z - a * a
    let c := -(a * a) * p.z * p.z
    let r := safeSqrt ((b + safeSqrt (b * b - 4 * c)) * 0.5)
    let cosTheta := if r > EPSILON then p.z / r else 0
    let theta := Real.arccos (glslClamp cosTheta (-1) 1)
    let phi0 := atan2 p.y p.x
    ⟨r, theta, if phi0 < 0 then phi0 + 2 * π else phi0⟩

/-- utils.glsl `boyerLindquistToCartesian(bl, a)` (GLSL variant, via
`safeSqrt`). -/
def boyerLindquistToCartesianG (bl : BL) (a : ℝ) : Vec3 :=
  ⟨safeSqrt (bl.r * bl.r + a * a) * Real.sin bl.theta * Real.cos bl.phi,
   safeSqrt (bl.r * bl.r + a * a) * Real.sin bl.theta * Real.sin bl.phi,
   bl.r * Real.cos bl.theta⟩

/-- `R_potential(r, E, Lz, Q, M, a)` = `[(r²+a²)E - aLz]² - Δ[(Lz-aE)² + Q]`. -/
def R_potential (r E Lz Q M a : ℝ) : ℝ :=
  ((r * r + a * a) * E - a * Lz) * ((r * r + a * a) * E - a * Lz) -
    (r * r - 2 * M * r + a * a) * ((Lz - a * E) * (Lz - a * E) + Q)

/-- `Theta_potential(theta, E, Lz, Q, a)` =
`Q + a²E²cos²θ - Lz²cot²θ`, with the cotangent term dropped when
`sin²θ < EPSILON`. -/
def Theta_potential (theta E Lz Q a : ℝ) : ℝ :=
  if Real.sin theta * Real.sin theta < EPSILON then
    Q + a * a * E * E * (Real.cos theta * Real.cos theta)
  else
    Q + a * a * E * E * (Real.cos theta * Real.cos theta) -
      Lz * Lz * ((Real.cos theta * Real.cos theta) /
        (Real.sin theta * Real.sin theta))

/-- `geodesicDerivatives`: `(dr/dλ, dθ/dλ, dφ/dλ) = (pr·Σ, pθ·Σ, ...)`,
with the φ-derivative zeroed when `sin²θ ≤ EPSILON`. -/
def geodesicDerivatives (r theta pr ptheta E Lz Q M a : ℝ) : Vec3 :=
  let sin2 := Real.sin theta * Real.sin theta
  let sig := r * r + a * a * (Real.cos theta * Real.cos theta)
  let del := r * r - 2 * M * r + a * a
  ⟨pr * sig, ptheta * sig,
   if sin2 > EPSILON then
     (-a * E + Lz / sin2 + a * ((r * r + a * a) * E - a * Lz) / del) / sig
   else 0⟩

/-- `momentumDerivatives`: `(d(pr)/dλ, d(pθ)/dλ)` from `dR/dr` and
`dΘ/dθ`, each divided by `2Σ` and then by `Σ`. -/
def momentumDerivatives (r theta pr ptheta E Lz Q M a : ℝ) : ℝ × ℝ :=
  let sinTheta := Real.sin theta
  let cosTheta := Real.cos theta
  let sin2 := sinTheta * sinTheta
  let sig := r * r + a * a * (cosTheta * cosTheta)
  let dDel_dr := 2 * r - 2 * M
  let P := (r * r + a * a) * E - a * Lz
  let dP_dr := 2 * r * E
  let term2 := Lz - a * E
  let dR_dr := 2 * P * dP_dr - dDel_dr * (term2 * term2 + Q)
  let dSigPr_dl := dR_dr / (2 * sig)
  let dTheta_dtheta :=
    if sin2 > EPSILON then
      -2 * (a * a) * E * E * cosTheta * sinTheta +
        2 * Lz * Lz * cosTheta / (sinTheta * sin2)
    else -2 * (a * a) * E * E * cosTheta * sinTheta
  let dSigPth_dl := dTheta_dtheta / (2 * sig)
  (dSigPr_dl / sig, dSigPth_dl / sig)

/-- The position/momentum update of the source `rk4Step` without its
trailing turning-point check: the four RK4 stages (θ clamped to
`[0.001, π - 0.001]` at every substage), the weighted update, and the
final θ clamp. -/
def rk4Update (s : GeoState) (E Lz Q M a h : ℝ) : GeoState :=
  let k1_pos := geodesicDerivatives s.r s.theta s.pr s.ptheta E Lz Q M a
  let k1_mom := momentumDerivatives s.r s.theta s.pr s.ptheta E Lz Q M a
  let r2 := s.r + 0.5 * h * k1_pos.x
  let th2 := glslClamp (s.theta + 0.5 * h * k1_pos.y) 0.001 (π - 0.001)
  let pr2 := s.pr + 0.5 * h * k1_mom.1
  let pth2 := s.ptheta + 0.5 * h * k1_mom.2
  let k2_pos := geodesicDerivatives r2 th2 pr2 pth2 E Lz Q M a
  let k2_mom := momentumDerivatives r2 th2 pr2 pth2 E Lz Q M a
  let r3 := s.r + 0.5 * h * k2_pos.x
  let th3 := glslClamp (s.theta + 0.5 * h * k2_pos.y) 0.001 (π - 0.001)
  let pr3 := s.pr + 0.5 * h * k2_mom.1
  let pth3 := s.ptheta + 0.5 * h * k2_mom.2
  let k3_pos := geodesicDerivatives r3 th3 pr3 pth3 E Lz Q M a
  let k3_mom := momentumDerivatives r3 th3 pr3 pth3 E Lz Q M a
  let r4 := s.r + h * k3_pos.x
  let th4 := glslClamp (s.theta + h * k3_pos.y) 0.001 (π - 0.001)
  let pr4 := s.pr + h * k3_mom.1
  let pth4 := s.ptheta + h * k3_mom.2
  let k4_pos := geodesicDerivatives r4 th4 pr4 pth4 E Lz Q M a
  let k4_mom := momentumDerivatives r4 th4 pr4 pth4 E Lz Q M a
  let rNew := s.r + h * (k1_pos.x + 2 * k2_pos.x + 2 * k3_pos.x + k4_pos.x) / 6
  let thetaNew := glslClamp
    (s.theta + h * (k1_pos.y + 2 * k2_pos.y + 2 * k3_pos.y + k4_pos.y) / 6)
    0.001 (π - 0.001)
  let phiNew := s.phi + h * (k1_pos.z + 2 * k2_pos.z + 2 * k3_pos.z + k4_pos.z) / 6
  let prNew := s.pr + h * (k1_mom.1 + 2 * k2_mom.1 + 2 * k3_mom.1 + k4_mom.1) / 6
  let pthNew := s.ptheta + h * (k1_mom.2 + 2 * k2_mom.2 + 2 * k3_mom.2 + k4_mom.2) / 6
  ⟨rNew, thetaNew, phiNew, prNew, pthNew⟩

/-- `rk4Step`: the full source step — the RK4 stages and update exactly
as in `rk4Update`, followed by the turning-point check, which flips the
sign of `pr` when `R(r) < 0` and of `pθ` when `Θ(θ) < 0` at the updated
state. -/
def rk4Step (s : GeoState) (E Lz Q M a h : ℝ) : GeoState :=
  let k1_pos := geodesicDerivatives s.r s.theta s.pr s.ptheta E Lz Q M a
  let k1_mom := momentumDerivatives s.r s.theta s.pr s.ptheta E Lz Q M a
  let r2 := s.r + 0.5 * h * k1_pos.x
  let th2 := glslClamp (s.theta + 0.5 * h * k1_pos.y) 0.001 (π - 0.001)
  let pr2 := s.pr + 0.5 * h * k1_mom.1
  let pth2 := s.ptheta + 0.5 * h * k1_mom.2
  let k2_pos := geodesicDerivatives r2 th2 pr2 pth2 E Lz Q M a
  let k2_mom := momentumDerivatives r2 th2 pr2 pth2 E Lz Q M a
  let r3 := s.r + 0.5 * h * k2_pos.x
  let th3 := glslClamp (s.theta + 0.5 * h * k2_pos.y) 0.001 (π - 0.001)
  let pr3 := s.pr + 0.5 * h * k2_mom.1
  let pth3 := s.ptheta + 0.5 * h * k2_mom.2
  let k3_pos := geodesicDerivatives r3 th3 pr3 pth3 E Lz Q M a
  let k3_mom := momentumDerivatives r3 th3 pr3 pth3 E Lz Q M a
  let r4 := s.r + h * k3_pos.x
  let th4 := glslClamp (s.theta + h * k3_pos.y) 0.001 (π - 0.001)
  let pr4 := s.pr + h * k3_mom.1
  let pth4 := s.ptheta + h * k3_mom.2
  let k4_pos := geodesicDerivatives r4 th4 pr4 pth4 E Lz Q M a
  let k4_mom := momentumDerivatives r4 th4 pr4 pth4 E Lz Q M a
  let rNew := s.r + h * (k1_pos.x + 2 * k2_pos.x + 2 * k3_pos.x + k4_pos.x) / 6
  let thetaNew := glslClamp
    (s.theta + h * (k1_pos.y + 2 * k2_pos.y + 2 * k3_pos.y + k4_pos.y) / 6)
    0.001 (π - 0.001)
  let phiNew := s.phi + h * (k1_pos.z + 2 * k2_pos.z + 2 * k3_pos.z + k4_pos.z) / 6
  let prNew := s.pr + h * (k1_mom.1 + 2 * k2_mom.1 + 2 * k3_mom.1 + k4_mom.1) / 6
  let pthNew := s.ptheta + h * (k1_mom.2 + 2 * k2_mom.2 + 2 * k3_mom.2 + k4_mom.2) / 6
  ⟨rNew, thetaNew, phiNew,
   if R_potential rNew E Lz Q M a < 0 then -prNew else prNew,
   if Theta_potential thetaNew E Lz Q a < 0 then -pthNew else pthNew⟩

/-- `computeConservedQuantities`: `(E, Lz, Q)` with `E` normalized to 1;
`Lz` zeroed when its coefficient is within EPSILON of 0, the
`cot²`-contribution of `Q` dropped when `sin²θ ≤ EPSILON`.  (`dr_dl` is
accepted and unused, as in the source.) -/
def computeConservedQuantities (r theta dr_dl dtheta_dl dphi_dl M a : ℝ) :
    ℝ × ℝ × ℝ :=
  let sinTheta := Real.sin theta
  let cosTheta := Real.cos theta
  let sin2 := sinTheta * sinTheta
  let cos2 := cosTheta * cosTheta
  let sig := r * r + a * a * cos2
  let del := r * r - 2 * M * r + a * a
  let E : ℝ := 1
  let omega := a * (r * r + a * a) / del - a
  let coeff := 1 / sin2 - a * a / del
  let Lz := if |coeff| > EPSILON then (sig * dphi_dl - omega * E) / coeff else 0
  let Q0 := sig * dtheta_dl * (sig * dtheta_dl) - a * a * E * E * cos2
  (E, Lz, if sin2 > EPSILON then Q0 + Lz * Lz * cos2 / sin2 else Q0)

/-- The source `initializeGeodesic` (renamed): converts the camera
position to Boyer-Lindquist coordinates, clamps θ to
`[0.01, π - 0.01]`, projects the ray direction on the spherical frame,
and produces the initial state together with `(E, Lz, Q)`. -/
def initGeodesic (camPos rayDir : Vec3) (M a : ℝ) : GeoState × ℝ × ℝ × ℝ :=
  let bl := cartesianToBoyerLindquistG camPos a
  let r := bl.r
  let theta := glslClamp bl.theta 0.01 (π - 0.01)
  let phi := bl.phi
  let sinTheta := Real.sin theta
  let rHat := camPos.normalize
  let rxy := Real.sqrt (camPos.x * camPos.x + camPos.y * camPos.y)
  let thetaHat : Vec3 :=
    if rxy > EPSILON then
      ⟨camPos.z * camPos.x / (r * rxy), camPos.z * camPos.y / (r * rxy),
       -rxy / r⟩
    else ⟨1, 0, 0⟩
  let zAxis : Vec3 := ⟨0, 0, 1⟩
  let phiHat : Vec3 :=
    if (Vec3.cross zAxis rHat).length < EPSILON then ⟨0, 1, 0⟩
    else (Vec3.cross zAxis rHat).normalize
  let dr_dl := Vec3.dot rayDir rHat
  let dtheta_dl := Vec3.dot rayDir thetaHat / r
  let dphi_dl := Vec3.dot rayDir phiHat / (r * sinTheta + EPSILON)
  let c := computeConservedQuantities r theta dr_dl dtheta_dl dphi_dl M a
  let sig := sigma r theta a
  let pr := glslSign dr_dl *
    safeSqrt (max (R_potential r c.1 c.2.1 c.2.2 M a) 0) / sig
  let ptheta := glslSign dtheta_dl *
    safeSqrt (max (Theta_potential theta c.1 c.2.1 c.2.2 a) 0) / sig
  (⟨r, theta, phi, pr, ptheta⟩, c)

/-- The ray-termination state machine of the integrator.  `active` is
the in-loop state (status code 0); the other three are the terminal
codes the source can return. -/
inductive RayStatus where
  | active
  | captured
  | escaped
  | maxStepsReached

/-- Result of `integrateGeodesic`: the returned status code, the `out`
parameter `finalDir`, and (instrumentation of the embedding) the number
of RK4 steps executed. -/
structure IntegrateResult where
  status : RayStatus
  finalDir : Vec3
  steps : ℕ

/-- The escaped-ray branch of `integrateGeodesic`: reconstructs the
Cartesian flight direction from the Boyer-Lindquist state. -/
def escapeDirection (r theta phi pr ptheta E Lz Q M a : ℝ) : Vec3 :=
  let pos := boyerLindquistToCartesianG ⟨r, theta, phi⟩ a
  let rHat := pos.normalize
  let zAxis : Vec3 := ⟨0, 0, 1⟩
  let phiHat : Vec3 :=
    if (Vec3.cross zAxis rHat).length < EPSILON then ⟨0, 1, 0⟩
    else (Vec3.cross zAxis rHat).normalize
  let rxy := Real.sqrt (pos.x * pos.x + pos.y * pos.y)
  let thetaHat : Vec3 :=
    if rxy > EPSILON then
      ⟨pos.z * pos.x / (r * rxy), pos.z * pos.y / (r * rxy), -rxy / r⟩
    else ⟨1, 0, 0⟩
  let vel := geodesicDerivatives r theta pr ptheta E Lz Q M a
  (vel.x • rHat + (r * vel.y) • thetaHat +
    (r * Real.sin theta * vel.z) • phiHat).normalize

/-- The adaptive step size: `stepSize * clamp((r - rH)/rPh, 0.01, 1.0)`,
halved within `rPh/2` of the photon sphere (the source writes the
halving as a separate `h *= 0.5`; it is folded into one product here). -/
def stepH (stepSize rH rPh r : ℝ) : ℝ :=
  stepSize * glslClamp ((r - rH) / rPh) 0.01 1 *
    (if |r - rPh| < rPh * 0.5 then 0.5 else 1)

/-- The `for (int i = 0; i < 1000; i++)` loop of `integrateGeodesic`,
with the hard iteration bound as structural fuel and the loop counter
`i` carried separately (so the `i >= maxSteps` check is the source's).
`count` counts executed RK4 steps.  The source's NaN check `r != r` is
carried literally (it is provably false over `ℝ`). -/
def integrateLoop (E Lz Q M a rH rPh : ℝ) (maxSteps : ℤ)
    (escapeRadius stepSize : ℝ) (rayDir : Vec3) :
    ℕ → ℤ → GeoState → ℕ → IntegrateResult
  | 0, _, _, count => ⟨RayStatus.maxStepsReached, rayDir, count⟩
  | fuel + 1, i, s, count =>
    if i ≥ maxSteps then ⟨RayStatus.maxStepsReached, rayDir, count⟩
    else if s.r < rH * 1.001 then ⟨RayStatus.captured, rayDir, count⟩
    else if s.r > escapeRadius then
      ⟨RayStatus.escaped,
       escapeDirection s.r s.theta s.phi s.pr s.ptheta E Lz Q M a, count⟩
    else
      let s' := rk4Step s E Lz Q M a (stepH stepSize rH rPh s.r)
      if s'.r < 0 ∨ s'.r ≠ s'.r then ⟨RayStatus.captured, rayDir, count + 1⟩
      else
        integrateLoop E Lz Q M a rH rPh maxSteps escapeRadius stepSize rayDir
          fuel (i + 1) s' (count + 1)

/-- `integrateGeodesic(camPos, rayDir, M, a, maxSteps, escapeRadius,
stepSize)`: initialization followed by the integration loop with fuel
1000. -/
def integrateGeodesic (camPos rayDir : Vec3) (M a : ℝ) (maxSteps : ℤ)
    (escapeRadius stepSize : ℝ) : IntegrateResult :=
  let init := initGeodesic camPos rayDir M a
  integrateLoop init.2.1 init.2.2.1 init.2.2.2 M a
    (eventHorizonRadius M a) (photonSphereRadius M a) maxSteps
    escapeRadius stepSize rayDir 1000 0 init.1 0

/-! ## Theorems -/

/-- **C10**: for every valid pair (M > 0, |a| ≤ M) the metric function Δ
vanishes exactly at the returned event-horizon radius, and is strictly
positive at every radius strictly beyond it. -/
theorem delta_zero_at_horizon_pos_outside (M a : ℝ) (hM : 0 < M)
    (ha : |a| ≤ M) :
    delta M a (eventHorizonRadius M a) = 0 ∧
      ∀ r : ℝ, eventHorizonRadius M a < r → 0 < delta M a r := by
  have ha2 : a * a ≤ M * M := by
    have h1 := abs_le.mp ha
    nlinarith [h1.1, h1.2]
  have hmax : max 0 (M * M - a * a) = M * M - a * a :=
    max_eq_right (by linarith)
  set s := Real.sqrt (max 0 (M * M - a * a)) with hs
  have hs0 : 0 ≤ s := Real.sqrt_nonneg _
  have hss : s * s = M * M - a * a := by
    rw [hs, hmax]
    exact Real.mul_self_sqrt (by linarith)
  constructor
  · show (M + s) * (M + s) - 2 * M * (M + s) + a * a = 0
    nlinarith [hss]
  · intro r hr
    have hr' : M + s < r := hr
    show 0 < r * r - 2 * M * r + a * a
    nlinarith [hss, hr', hs0]

/-- Witness for C10 at the concrete valid pair (M, a) = (1, 0) and the
outside radius r = 3. -/
theorem delta_zero_at_horizon_pos_outside_witness :
    (0 : ℝ) < 1 ∧ |(0 : ℝ)| ≤ 1 ∧
      delta 1 0 (eventHorizonRadius 1 0) = 0 ∧ 0 < delta 1 0 3 := by
  have h := delta_zero_at_horizon_pos_outside 1 0 (by norm_num) (by norm_num)
  refine ⟨by norm_num, by norm_num, h.1, h.2 3 ?_⟩
  show 1 + Real.sqrt (max 0 (1 * 1 - 0 * 0)) < 3
  have : max (0 : ℝ) (1 * 1 - 0 * 0) = 1 := by norm_num
  rw [this, Real.sqrt_one]
  norm_num

/-- **C3**: constructing/mutating the black-hole parameters fails exactly
on M ≤ 0 or |spin| > M, leaving the stored parameters unchanged, and on
every valid input stores the given values unmodified (no clamping). -/
theorem setParameters_correct (old : KerrParams) (mass spin : ℝ) :
    (mass ≤ 0 → setParameters old mass spin = (old, some KerrError.invalidMass)) ∧
    (0 < mass → mass < |spin| →
      setParameters old mass spin = (old, some KerrError.invalidSpin)) ∧
    (0 < mass → |spin| ≤ mass →
      setParameters old mass spin = (⟨mass, spin, spin * spin⟩, none)) := by
  refine ⟨fun h => ?_, fun h1 h2 => ?_, fun h1 h2 => ?_⟩
  · simp only [setParameters, if_pos h]
  · simp only [setParameters, if_neg (not_le.mpr h1), if_pos h2]
  · simp only [setParameters, if_neg (not_le.mpr h1), if_neg (not_lt.mpr h2)]

/-- Witness for C3: the invalid pair (mass, spin) = (-1, 0) is rejected
keeping the old state ⟨2, 1, 1⟩, the invalid pair (1, 2) is rejected, and
the valid pair (2, 1) is stored unmodified. -/
theorem setParameters_correct_witness :
    setParameters ⟨2, 1, 1⟩ (-1) 0 = (⟨2, 1, 1⟩, some KerrError.invalidMass) ∧
    setParameters ⟨2, 1, 1⟩ 1 2 = (⟨2, 1, 1⟩, some KerrError.invalidSpin) ∧
    setParameters ⟨2, 1, 1⟩ 2 1 = (⟨2, 1, 1 * 1⟩, none) := by
  refine ⟨(setParameters_correct ⟨2, 1, 1⟩ (-1) 0).1 (by norm_num),
    (setParameters_correct ⟨2, 1, 1⟩ 1 2).2.1 (by norm_num) (by rw [abs_two]; norm_num),
    (setParameters_correct ⟨2, 1, 1⟩ 2 1).2.2 (by norm_num) (by rw [abs_one]; norm_num)⟩

/-- **C2 counterexample**: (M, a) = (1, -1) is a valid parameter pair
(M > 0, |a| ≤ M), yet the prograde ISCO radius (= M) is strictly below
the photon-sphere radius (= 4M), refuting the claimed ordering
`photonSphere ≤ iscoRadius` over the full range |a| ≤ M. -/
theorem radii_ordering_cex :
    (0 : ℝ) < 1 ∧ |(-1 : ℝ)| ≤ 1 ∧
      iscoRadius 1 (-1) < photonSphereRadius 1 (-1) := by
  have habs : |(-1 : ℝ)| = 1 := by rw [abs_neg, abs_one]
  have hdiv : ((-1 : ℝ)) / 1 = -1 := by norm_num
  have hphoton : photonSphereRadius 1 (-1) = 4 := by
    rw [photonSphereRadius, if_neg (by rw [habs, EPSILON]; norm_num)]
    rw [hdiv, show max (-1 : ℝ) (min 1 (-1)) = -1 by norm_num]
    rw [show -(-1 : ℝ) = 1 by norm_num, Real.arccos_one]
    norm_num
  have hZ1 : Z1def (-1) = 1 := by
    rw [Z1def, show (1 - (-1 : ℝ) * (-1)) = 0 by norm_num,
      Real.zero_rpow (by norm_num)]
    ring
  have hZ2 : Z2def (-1) = 2 := by
    rw [Z2def, hZ1, show (3 * ((-1 : ℝ) * (-1)) + 1 * 1) = 2 ^ 2 by norm_num,
      Real.sqrt_sq (by norm_num)]
  have hsq : iscoSqrtTerm (-1) = 4 := by
    rw [iscoSqrtTerm, hZ1, hZ2,
      show ((3 - (1 : ℝ)) * (3 + 1 + 2 * 2)) = 4 ^ 2 by norm_num,
      Real.sqrt_sq (by norm_num)]
  have hisco : iscoRadius 1 (-1) = 1 := by
    rw [iscoRadius, hdiv, iscoX, hZ2, hsq]
    norm_num
  rw [hisco, hphoton]
  norm_num

/-- Cube of the real cube root of a nonnegative number. -/
theorem cbrt_cube {x : ℝ} (hx : 0 ≤ x) : (x ^ ((1 : ℝ) / 3)) ^ (3 : ℕ) = x := by
  rw [← Real.rpow_natCast (x ^ ((1 : ℝ) / 3)) 3, ← Real.rpow_mul hx]
  norm_num

/-- For 0 ≤ χ ≤ 1 the BPT intermediate `Z1` satisfies the cubic
`(Z1-1)³ = (1-χ²)(3 Z1 - 1)` and lies in `[1, 3]`. -/
theorem Z1_properties (chi : ℝ) (h0 : 0 ≤ chi) (h1 : chi ≤ 1) :
    (Z1def chi - 1) ^ 3 = (1 - chi ^ 2) * (3 * Z1def chi - 1) ∧
      1 ≤ Z1def chi ∧ Z1def chi ≤ 3 := by
  set p := (1 + chi) ^ ((1 : ℝ) / 3) with hp
  set q := (1 - chi) ^ ((1 : ℝ) / 3) with hq
  have hp0 : 0 ≤ p := Real.rpow_nonneg (by linarith) _
  have hq0 : 0 ≤ q := Real.rpow_nonneg (by linarith) _
  have hp3 : p ^ (3 : ℕ) = 1 + chi := cbrt_cube (by linarith)
  have hq3 : q ^ (3 : ℕ) = 1 - chi := cbrt_cube (by linarith)
  have habs : |1 - chi| = 1 - chi := abs_of_nonneg (by linarith)
  have hmul : (1 - chi * chi) ^ ((1 : ℝ) / 3) = p * q := by
    rw [show (1 - chi * chi) = (1 + chi) * (1 - chi) by ring,
      Real.mul_rpow (by linarith) (by linarith)]
  have hZ : Z1def chi = 1 + p * q * (p + q) := by
    rw [Z1def, hmul, habs, ← hp, ← hq]
  have hsum : p ^ (3 : ℕ) + q ^ (3 : ℕ) = 2 := by rw [hp3, hq3]; ring
  refine ⟨?_, ?_, ?_⟩
  · have hpq3 : (1 - chi ^ 2) = p ^ (3 : ℕ) * q ^ (3 : ℕ) := by
      rw [hp3, hq3]; ring
    rw [hZ, hpq3]
    linear_combination (p * q) ^ 3 * hsum
  · rw [hZ]
    linarith [mul_nonneg (mul_nonneg hp0 hq0) (add_nonneg hp0 hq0)]
  · rw [hZ]
    linarith [mul_nonneg (add_nonneg hp0 hq0) (sq_nonneg (p - q)), hsum]

/-- For 0 ≤ χ ≤ 1 the dimensionless prograde ISCO value `x = iscoX χ`
satisfies `1 ≤ x`, `x² - 6x - 3χ² ≤ 0` and the quartic
`(x² - 6x - 3χ²)² = 64 χ² x` (the square of the defining equation
`x² - 6x + 8χ√x - 3χ² = 0` of the prograde ISCO). -/
theorem iscoX_properties (chi : ℝ) (h0 : 0 ≤ chi) (h1 : chi ≤ 1) :
    1 ≤ iscoX chi ∧
      iscoX chi ^ 2 - 6 * iscoX chi - 3 * chi ^ 2 ≤ 0 ∧
      (iscoX chi ^ 2 - 6 * iscoX chi - 3 * chi ^ 2) ^ 2 =
        64 * chi ^ 2 * iscoX chi := by
  obtain ⟨hcubic, hZ1ge, hZ1le⟩ := Z1_properties chi h0 h1
  have hZ2sq : Z2def chi ^ 2 = 3 * chi ^ 2 + Z1def chi ^ 2 := by
    rw [Z2def, Real.sq_sqrt (add_nonneg (by positivity) (mul_self_nonneg _))]
    ring
  have hZ20 : 0 ≤ Z2def chi := Real.sqrt_nonneg _
  have hs0 : 0 ≤ iscoSqrtTerm chi := Real.sqrt_nonneg _
  have harg : 0 ≤ (3 - Z1def chi) * (3 + Z1def chi + 2 * Z2def chi) :=
    mul_nonneg (by linarith) (by linarith)
  have hssq : iscoSqrtTerm chi ^ 2 =
      (3 - Z1def chi) * (3 + Z1def chi + 2 * Z2def chi) := by
    rw [iscoSqrtTerm]
    exact Real.sq_sqrt harg
  have hx : iscoX chi = 3 + Z2def chi - iscoSqrtTerm chi := rfl
  rw [hx]
  generalize Z1def chi = Z1 at hcubic hZ1ge hZ1le hZ2sq harg hssq
  generalize Z2def chi = Z2 at hZ2sq hZ20 harg hssq ⊢
  generalize iscoSqrtTerm chi = s at hssq hs0 ⊢
  have hw0 : 0 ≤ Z1 - 1 := by linarith
  have h32 : (0 : ℝ) < 3 * (Z1 - 1) + 2 := by linarith
  have hTmul : (3 * chi ^ 2 + 4 * Z1 ^ 2 - 2 * Z1 - 5) * (3 * (Z1 - 1) + 2) =
      9 * (Z1 - 1) ^ 3 + 26 * (Z1 - 1) ^ 2 + 12 * (Z1 - 1) := by
    linear_combination 3 * hcubic
  have key1 : 0 ≤ 3 * chi ^ 2 + 4 * Z1 ^ 2 - 2 * Z1 - 5 := by
    by_contra hT
    push_neg at hT
    have h9 : 0 ≤ 9 * (Z1 - 1) ^ 3 + 26 * (Z1 - 1) ^ 2 + 12 * (Z1 - 1) := by
      have h3 := pow_nonneg hw0 3
      have h2 := sq_nonneg (Z1 - 1)
      linarith
    have hneg := mul_neg_of_neg_of_pos hT h32
    linarith [hTmul]
  have hZ2ge : Z1 ≤ Z2 :=
    le_of_pow_le_pow_left₀ two_ne_zero hZ20 (by linarith [sq_nonneg chi])
  have hexpand : (2 + Z2) ^ 2 - s ^ 2 =
      (3 * chi ^ 2 + 4 * Z1 ^ 2 - 2 * Z1 - 5) + 2 * (Z2 - Z1) * (Z1 - 1) := by
    linear_combination hZ2sq - hssq
  have hssub : s ^ 2 ≤ (2 + Z2) ^ 2 := by
    linarith [hexpand, key1, mul_nonneg (sub_nonneg.mpr hZ2ge) hw0]
  have hsle : s ≤ 2 + Z2 :=
    le_of_pow_le_pow_left₀ two_ne_zero (by linarith) hssub
  have hsge : 3 - Z1 ≤ s := by
    refine le_of_pow_le_pow_left₀ two_ne_zero hs0 ?_
    have hdiff : (3 - Z1) * (3 + Z1 + 2 * Z2) - (3 - Z1) ^ 2 =
        (3 - Z1) * (2 * Z1 + 2 * Z2) := by ring
    have hprod : 0 ≤ (3 - Z1) * (2 * Z1 + 2 * Z2) :=
      mul_nonneg (by linarith) (by linarith)
    linarith [hssq]
  have e1 : (3 + Z2 - s) ^ 2 - 6 * (3 + Z2 - s) - 3 * chi ^ 2 =
      2 * Z2 * (3 - Z1 - s) := by
    linear_combination hZ2sq + hssq
  have key2 : Z2 ^ 2 * (3 - Z1) = 8 * chi ^ 2 := by
    linear_combination (3 - Z1) * hZ2sq - hcubic
  have e2 : (3 - Z1 - s) ^ 2 = 2 * (3 - Z1) * (3 + Z2 - s) := by
    linear_combination hssq
  refine ⟨by linarith, ?_, ?_⟩
  · rw [e1]
    have hprod2 : 0 ≤ Z2 * (s - (3 - Z1)) := mul_nonneg hZ20 (by linarith)
    linarith [hprod2]
  · calc ((3 + Z2 - s) ^ 2 - 6 * (3 + Z2 - s) - 3 * chi ^ 2) ^ 2
        = (2 * Z2 * (3 - Z1 - s)) ^ 2 := by rw [e1]
      _ = 4 * Z2 ^ 2 * (3 - Z1 - s) ^ 2 := by ring
      _ = 4 * Z2 ^ 2 * (2 * (3 - Z1) * (3 + Z2 - s)) := by rw [e2]
      _ = 8 * (Z2 ^ 2 * (3 - Z1)) * (3 + Z2 - s) := by ring
      _ = 8 * (8 * chi ^ 2) * (3 + Z2 - s) := by rw [key2]
      _ = 64 * chi ^ 2 * (3 + Z2 - s) := by ring

/-- Pure-algebra step: if `y ≥ 1` satisfies the prograde-ISCO quartic and
`yph ≥ 1` satisfies the prograde photon-orbit cubic, then `yph ≤ y`
(both in terms of `√(r/M)`). -/
theorem isco_photon_aux (chi y yph : ℝ)
    (hGy : y ^ 4 - 6 * y ^ 2 + 8 * chi * y - 3 * chi ^ 2 = 0)
    (hy1 : 1 ≤ y)
    (hcub : yph ^ 3 - 3 * yph + 2 * chi = 0)
    (hyph1 : 1 ≤ yph) : yph ≤ y := by
  by_contra hlt
  push_neg at hlt
  have hfac : 0 < y ^ 2 + y * yph + yph ^ 2 - 3 := by nlinarith [hy1, hyph1, hlt]
  have hv : y ^ 3 - 3 * y + 2 * chi < 0 := by
    nlinarith [hcub, mul_pos (sub_pos.mpr hlt) hfac]
  have hzero : y * (y ^ 3 - 3 * y + 2 * chi) - 3 * (y - chi) ^ 2 = 0 := by
    linear_combination hGy
  nlinarith [hzero, mul_neg_of_pos_of_neg (show (0 : ℝ) < y by linarith) hv,
    sq_nonneg (y - chi)]

/-- For 0 ≤ χ ≤ 1, with ψ = arccos(-χ) and the photon-sphere value
`p = 2(1 + cos((2/3)ψ))`, we have `1 + √(1-χ²) ≤ p` (event horizon below
photon sphere, in units of M) and `p ≤ iscoX χ` (photon sphere below
prograde ISCO). -/
theorem photonX_bounds (chi : ℝ) (h0 : 0 ≤ chi) (h1 : chi ≤ 1) :
    1 + Real.sqrt (1 - chi ^ 2) ≤
        2 * (1 + Real.cos (2 / 3 * Real.arccos (-chi))) ∧
      2 * (1 + Real.cos (2 / 3 * Real.arccos (-chi))) ≤ iscoX chi := by
  have hψ0 : 0 ≤ Real.arccos (-chi) := Real.arccos_nonneg _
  have hψπ : Real.arccos (-chi) ≤ π := Real.arccos_le_pi _
  have hcosψ : Real.cos (Real.arccos (-chi)) = -chi :=
    Real.cos_arccos (by linarith) (by linarith)
  have hsinψ : Real.sin (Real.arccos (-chi)) = Real.sqrt (1 - chi ^ 2) := by
    rw [Real.sin_arccos, neg_pow]
    norm_num
  have hpi3 : Real.arccos (-chi) / 3 ≤ π / 3 := by linarith
  have hω0 : 0 ≤ Real.arccos (-chi) / 3 := by linarith
  have hc3 : 4 * Real.cos (Real.arccos (-chi) / 3) ^ 3 -
      3 * Real.cos (Real.arccos (-chi) / 3) = -chi := by
    rw [← Real.cos_three_mul, show 3 * (Real.arccos (-chi) / 3) =
      Real.arccos (-chi) by ring, hcosψ]
  have hs3 : 3 * Real.sin (Real.arccos (-chi) / 3) -
      4 * Real.sin (Real.arccos (-chi) / 3) ^ 3 = Real.sqrt (1 - chi ^ 2) := by
    rw [← Real.sin_three_mul, show 3 * (Real.arccos (-chi) / 3) =
      Real.arccos (-chi) by ring, hsinψ]
  have hcge : 1 / 2 ≤ Real.cos (Real.arccos (-chi) / 3) := by
    have h := Real.cos_le_cos_of_nonneg_of_le_pi hω0
      (by linarith [Real.pi_pos] : π / 3 ≤ π) hpi3
    rwa [Real.cos_pi_div_three] at h
  have hsin0 : 0 ≤ Real.sin (Real.arccos (-chi) / 3) :=
    Real.sin_nonneg_of_nonneg_of_le_pi hω0 (by linarith [Real.pi_pos])
  have hsle1 : Real.sin (Real.arccos (-chi) / 3) ≤ 1 :=
    Real.sin_le_one _
  have hsle : Real.sin (Real.arccos (-chi) / 3) ≤ Real.sqrt 3 / 2 := by
    have hmem1 : Real.arccos (-chi) / 3 ∈ Set.Icc (-(π / 2)) (π / 2) := by
      constructor
      · linarith [Real.pi_pos]
      · linarith [Real.pi_pos]
    have hmem2 : π / 3 ∈ Set.Icc (-(π / 2)) (π / 2) := by
      constructor
      · linarith [Real.pi_pos]
      · linarith [Real.pi_pos]
    have h := Real.strictMonoOn_sin.monotoneOn hmem1 hmem2 hpi3
    rwa [Real.sin_pi_div_three] at h
  have hsin2 : Real.sin (Real.arccos (-chi) / 3) ^ 2 ≤ 3 / 4 := by
    have h3 : Real.sqrt 3 ^ 2 = 3 := Real.sq_sqrt (by norm_num)
    nlinarith [hsle, hsin0, Real.sqrt_nonneg 3]
  have hpyth : Real.sin (Real.arccos (-chi) / 3) ^ 2 +
      Real.cos (Real.arccos (-chi) / 3) ^ 2 = 1 :=
    Real.sin_sq_add_cos_sq _
  have hdouble : Real.cos (2 / 3 * Real.arccos (-chi)) =
      2 * Real.cos (Real.arccos (-chi) / 3) ^ 2 - 1 := by
    rw [show 2 / 3 * Real.arccos (-chi) = 2 * (Real.arccos (-chi) / 3) by ring,
      Real.cos_two_mul]
  constructor
  · rw [hdouble]
    nlinarith [hs3, hpyth, hsin2, hsle1,
      mul_nonneg (mul_nonneg (sub_nonneg.mpr hsle1) hsin0) hsin0]
  · obtain ⟨hx1, hsign, hquartic⟩ := iscoX_properties chi h0 h1
    have hx0 : (0 : ℝ) ≤ iscoX chi := by linarith
    have hy2 : Real.sqrt (iscoX chi) ^ 2 = iscoX chi := Real.sq_sqrt hx0
    have hy1 : 1 ≤ Real.sqrt (iscoX chi) := by
      rw [show (1 : ℝ) = Real.sqrt 1 by rw [Real.sqrt_one]]
      exact Real.sqrt_le_sqrt hx1
    have hy0 : 0 ≤ Real.sqrt (iscoX chi) := Real.sqrt_nonneg _
    have h8 : 8 * chi * Real.sqrt (iscoX chi) =
        3 * chi ^ 2 + 6 * iscoX chi - iscoX chi ^ 2 := by
      have hsq : (8 * chi * Real.sqrt (iscoX chi)) ^ 2 =
          (3 * chi ^ 2 + 6 * iscoX chi - iscoX chi ^ 2) ^ 2 := by
        calc (8 * chi * Real.sqrt (iscoX chi)) ^ 2
            = 64 * chi ^ 2 * Real.sqrt (iscoX chi) ^ 2 := by ring
          _ = 64 * chi ^ 2 * iscoX chi := by rw [hy2]
          _ = (iscoX chi ^ 2 - 6 * iscoX chi - 3 * chi ^ 2) ^ 2 :=
              hquartic.symm
          _ = (3 * chi ^ 2 + 6 * iscoX chi - iscoX chi ^ 2) ^ 2 := by ring
      have ha' : 0 ≤ 8 * chi * Real.sqrt (iscoX chi) := by positivity
      have hb' : 0 ≤ 3 * chi ^ 2 + 6 * iscoX chi - iscoX chi ^ 2 := by
        linarith
      calc 8 * chi * Real.sqrt (iscoX chi)
          = Real.sqrt ((8 * chi * Real.sqrt (iscoX chi)) ^ 2) :=
            (Real.sqrt_sq ha').symm
        _ = Real.sqrt ((3 * chi ^ 2 + 6 * iscoX chi - iscoX chi ^ 2) ^ 2) := by
            rw [hsq]
        _ = 3 * chi ^ 2 + 6 * iscoX chi - iscoX chi ^ 2 := Real.sqrt_sq hb'
    have hGy : Real.sqrt (iscoX chi) ^ 4 - 6 * Real.sqrt (iscoX chi) ^ 2 +
        8 * chi * Real.sqrt (iscoX chi) - 3 * chi ^ 2 = 0 := by
      have h4 : Real.sqrt (iscoX chi) ^ 4 = iscoX chi ^ 2 := by
        rw [show Real.sqrt (iscoX chi) ^ 4 =
          (Real.sqrt (iscoX chi) ^ 2) ^ 2 by ring, hy2]
      linarith [h4, hy2, h8]
    have hcub2 : (2 * Real.cos (Real.arccos (-chi) / 3)) ^ 3 -
        3 * (2 * Real.cos (Real.arccos (-chi) / 3)) + 2 * chi = 0 := by
      linear_combination 2 * hc3
    have hyph1 : 1 ≤ 2 * Real.cos (Real.arccos (-chi) / 3) := by linarith
    have hle : 2 * Real.cos (Real.arccos (-chi) / 3) ≤
        Real.sqrt (iscoX chi) :=
      isco_photon_aux chi _ _ hGy hy1 hcub2 hyph1
    have hsq2 : (2 * Real.cos (Real.arccos (-chi) / 3)) ^ 2 ≤
        Real.sqrt (iscoX chi) ^ 2 :=
      pow_le_pow_left₀ (by linarith) hle 2
    rw [hdouble]
    linarith [hsq2, hy2]

/-- For 0 ≤ χ ≤ 3/5 the dimensionless prograde ISCO stays at or above 3
(the Schwarzschild photon-sphere value). -/
theorem iscoX_ge_three (chi : ℝ) (h0 : 0 ≤ chi) (h35 : chi ≤ 3 / 5) :
    3 ≤ iscoX chi := by
  have h1 : chi ≤ 1 := by linarith
  obtain ⟨hcubic, hZ1ge, hZ1le⟩ := Z1_properties chi h0 h1
  have hZ2sq : Z2def chi ^ 2 = 3 * chi ^ 2 + Z1def chi ^ 2 := by
    rw [Z2def, Real.sq_sqrt (add_nonneg (by positivity) (mul_self_nonneg _))]
    ring
  have hZ20 : 0 ≤ Z2def chi := Real.sqrt_nonneg _
  have hs0 : 0 ≤ iscoSqrtTerm chi := Real.sqrt_nonneg _
  have hssq : iscoSqrtTerm chi ^ 2 =
      (3 - Z1def chi) * (3 + Z1def chi + 2 * Z2def chi) := by
    rw [iscoSqrtTerm]
    exact Real.sq_sqrt (mul_nonneg (by linarith) (by linarith))
  have hx : iscoX chi = 3 + Z2def chi - iscoSqrtTerm chi := rfl
  rw [hx]
  generalize Z1def chi = Z1 at hcubic hZ1ge hZ1le hZ2sq hssq
  generalize Z2def chi = Z2 at hZ2sq hZ20 hssq ⊢
  generalize iscoSqrtTerm chi = s at hssq hs0 ⊢
  have hchi2 : chi ^ 2 ≤ 9 / 25 := by nlinarith
  have hw : 8 / 5 ≤ Z1 - 1 := by
    by_contra h
    push_neg at h
    have hw0 : 0 ≤ Z1 - 1 := by linarith
    have hcube_le : (Z1 - 1) ^ 3 ≤ 8 / 5 * (Z1 - 1) ^ 2 := by
      nlinarith [sq_nonneg (Z1 - 1)]
    have hcube_ge : (16 / 25) * (3 * (Z1 - 1) + 2) ≤ (Z1 - 1) ^ 3 := by
      have h32 : (0 : ℝ) ≤ 3 * (Z1 - 1) + 2 := by linarith
      nlinarith [hcubic, hchi2, h32]
    nlinarith [hcube_le, hcube_ge, hw0, h, sq_nonneg (Z1 - 1 - 3 / 5)]
  have hZ2le : Z2 ≤ 16 / 5 := by
    have hZ1sq : Z1 ^ 2 ≤ 9 := by nlinarith [hZ1le, hZ1ge]
    have hsq : Z2 ^ 2 ≤ (16 / 5) ^ 2 := by
      rw [hZ2sq]
      linarith [hchi2, hZ1sq]
    exact le_of_pow_le_pow_left₀ two_ne_zero (by norm_num) hsq
  have hdiff : Z2 ^ 2 - s ^ 2 =
      3 * chi ^ 2 + 2 * Z1 ^ 2 - 9 + 2 * Z2 * (Z1 - 3) := by
    linear_combination hZ2sq - hssq
  have hprod : Z2 * (3 - Z1) ≤ (16 / 5) * (2 / 5) := by
    have h3Z1 : 0 ≤ 3 - Z1 := by linarith
    have h25 : 3 - Z1 ≤ 2 / 5 := by linarith
    calc Z2 * (3 - Z1) ≤ (16 / 5) * (3 - Z1) :=
          mul_le_mul_of_nonneg_right hZ2le h3Z1
      _ ≤ (16 / 5) * (2 / 5) := by linarith
  have hssub : s ^ 2 ≤ Z2 ^ 2 := by nlinarith [hdiff, hprod, hw, sq_nonneg chi]
  have hsZ2 : s ≤ Z2 := le_of_pow_le_pow_left₀ two_ne_zero hZ20 hssub
  linarith

/-- **C2 (amended)**: for every M > 0 and 0 ≤ a ≤ M such that either
a ≥ EPSILON or a ≤ (3/5)M (so the absolute-epsilon Schwarzschild fast
path of `photonSphereRadius` cannot fire at a near-extremal spin ratio),
the named radii are ordered
`innerHorizon ≤ eventHorizon ≤ photonSphere ≤ isco ≤ iscoRetrograde`. -/
theorem radii_ordering (M a : ℝ) (hM : 0 < M) (ha0 : 0 ≤ a) (haM : a ≤ M)
    (hcfg : EPSILON ≤ a ∨ a ≤ 3 / 5 * M) :
    innerHorizonRadius M a ≤ eventHorizonRadius M a ∧
      eventHorizonRadius M a ≤ photonSphereRadius M a ∧
      photonSphereRadius M a ≤ iscoRadius M a ∧
      iscoRadius M a ≤ iscoRadiusRetrograde M a := by
  have hchi0 : 0 ≤ a / M := div_nonneg ha0 hM.le
  have hchi1 : a / M ≤ 1 := (div_le_one hM).mpr haM
  have ha2 : a * a ≤ M * M := by nlinarith
  have hmax : max 0 (M * M - a * a) = M * M - a * a :=
    max_eq_right (by linarith)
  have hfact : M * M - a * a = M ^ 2 * (1 - (a / M) ^ 2) := by
    field_simp
    ring
  have hsqrt : Real.sqrt (max 0 (M * M - a * a)) =
      M * Real.sqrt (1 - (a / M) ^ 2) := by
    rw [hmax, hfact, Real.sqrt_mul (sq_nonneg M), Real.sqrt_sq hM.le]
  have hsq1 : Real.sqrt (1 - (a / M) ^ 2) ≤ 1 :=
    Real.sqrt_le_one.mpr (by nlinarith [hchi0, hchi1])
  have hclamp : max (-1 : ℝ) (min 1 (a / M)) = a / M := by
    rw [min_eq_right hchi1, max_eq_right (by linarith)]
  refine ⟨?_, ?_, ?_, ?_⟩
  · rw [innerHorizonRadius, eventHorizonRadius]
    linarith [Real.sqrt_nonneg (max 0 (M * M - a * a))]
  · rw [eventHorizonRadius, photonSphereRadius]
    split_ifs with h
    · rw [hsqrt]
      nlinarith [hsq1, hM]
    · rw [hclamp, hsqrt]
      have h2 := (photonX_bounds (a / M) hchi0 hchi1).1
      calc M + M * Real.sqrt (1 - (a / M) ^ 2)
          = M * (1 + Real.sqrt (1 - (a / M) ^ 2)) := by ring
        _ ≤ M * (2 * (1 + Real.cos (2 / 3 * Real.arccos (-(a / M))))) :=
            mul_le_mul_of_nonneg_left h2 hM.le
        _ = 2 * M * (1 + Real.cos (2 / 3 * Real.arccos (-(a / M)))) := by
            ring
  · rw [photonSphereRadius, iscoRadius]
    split_ifs with h
    · have ha35 : a ≤ 3 / 5 * M := by
        rcases hcfg with hb | hb
        · exfalso
          rw [abs_of_nonneg ha0] at h
          linarith
        · exact hb
      have hchi35 : a / M ≤ 3 / 5 := by
        rw [div_le_iff hM]
        linarith
      have h3 := iscoX_ge_three (a / M) hchi0 hchi35
      calc 3 * M = M * 3 := by ring
        _ ≤ M * iscoX (a / M) := mul_le_mul_of_nonneg_left h3 hM.le
    · rw [hclamp]
      have h4 := (photonX_bounds (a / M) hchi0 hchi1).2
      calc 2 * M * (1 + Real.cos (2 / 3 * Real.arccos (-(a / M))))
          = M * (2 * (1 + Real.cos (2 / 3 * Real.arccos (-(a / M))))) := by
            ring
        _ ≤ M * iscoX (a / M) := mul_le_mul_of_nonneg_left h4 hM.le
  · rw [iscoRadius, iscoRadiusRetrograde]
    have hs0 : 0 ≤ iscoSqrtTerm (a / M) := Real.sqrt_nonneg _
    have hle : iscoX (a / M) ≤ iscoRetroX (a / M) := by
      rw [iscoX, iscoRetroX]
      linarith
    exact mul_le_mul_of_nonneg_left hle hM.le

/-- Witness for the amended C2 at the concrete valid pair
(M, a) = (1, 1/2). -/
theorem radii_ordering_witness :
    ((0 : ℝ) < 1 ∧ (0 : ℝ) ≤ 1 / 2 ∧ (1 / 2 : ℝ) ≤ 1 ∧ EPSILON ≤ (1 / 2 : ℝ)) ∧
      innerHorizonRadius 1 (1 / 2) ≤ eventHorizonRadius 1 (1 / 2) ∧
      eventHorizonRadius 1 (1 / 2) ≤ photonSphereRadius 1 (1 / 2) ∧
      photonSphereRadius 1 (1 / 2) ≤ iscoRadius 1 (1 / 2) ∧
      iscoRadius 1 (1 / 2) ≤ iscoRadiusRetrograde 1 (1 / 2) :=
  ⟨⟨by norm_num, by norm_num, by norm_num, by norm_num [EPSILON]⟩,
    radii_ordering 1 (1 / 2) (by norm_num) (by norm_num) (by norm_num)
      (Or.inl (by norm_num [EPSILON]))⟩

/-- **C7**: at any disk radius where the orbital velocity v satisfies
0 < v < 1, the Doppler factor exceeds 1 for a directly approaching
element (view angle 0) and is below 1 for a directly receding element
(view angle π). -/
theorem dopplerFactor_blueshift_redshift (d : AccretionDisk) (r : ℝ)
    (h0 : 0 < d.orbitalVelocity r) (h1 : d.orbitalVelocity r < 1) :
    1 < d.dopplerFactor r 0 ∧ d.dopplerFactor r π < 1 := by
  set v := d.orbitalVelocity r with hv
  have hv2 : 0 < 1 - v * v := by nlinarith
  have hS : 0 < Real.sqrt (1 - v * v) := Real.sqrt_pos.mpr hv2
  constructor
  · show 1 < 1 / (1 / Real.sqrt (1 - v * v) * (1 - v * Real.cos 0))
    rw [Real.cos_zero]
    have heq : 1 / Real.sqrt (1 - v * v) * (1 - v * 1) =
        (1 - v) / Real.sqrt (1 - v * v) := by ring
    rw [heq]
    have hlt : 1 - v < Real.sqrt (1 - v * v) :=
      (Real.lt_sqrt (by linarith)).mpr (by nlinarith)
    have hApos : 0 < (1 - v) / Real.sqrt (1 - v * v) :=
      div_pos (by linarith) hS
    exact (one_lt_div hApos).mpr ((div_lt_one hS).mpr hlt)
  · show 1 / (1 / Real.sqrt (1 - v * v) * (1 - v * Real.cos π)) < 1
    rw [Real.cos_pi]
    have heq : 1 / Real.sqrt (1 - v * v) * (1 - v * (-1)) =
        (1 + v) / Real.sqrt (1 - v * v) := by ring
    rw [heq]
    have hlt : Real.sqrt (1 - v * v) < 1 + v :=
      (Real.sqrt_lt' (by linarith)).mpr (by nlinarith)
    have hApos : 0 < (1 + v) / Real.sqrt (1 - v * v) :=
      div_pos (by linarith) hS
    rw [div_lt_one hApos]
    exact (one_lt_div hS).mpr hlt

/-- Witness for C7: the default Schwarzschild disk at r = 10 has
0 < v < 1, and the Doppler conclusions follow there. -/
theorem dopplerFactor_blueshift_redshift_witness :
    (0 < AccretionDisk.orbitalVelocity ⟨1, 0, 6, 15, 10000000⟩ 10 ∧
      AccretionDisk.orbitalVelocity ⟨1, 0, 6, 15, 10000000⟩ 10 < 1) ∧
      1 < AccretionDisk.dopplerFactor ⟨1, 0, 6, 15, 10000000⟩ 10 0 ∧
      AccretionDisk.dopplerFactor ⟨1, 0, 6, 15, 10000000⟩ 10 π < 1 := by
  have hpair : 0 < AccretionDisk.orbitalVelocity ⟨1, 0, 6, 15, 10000000⟩ 10 ∧
      AccretionDisk.orbitalVelocity ⟨1, 0, 6, 15, 10000000⟩ 10 < 1 := by
    rw [AccretionDisk.orbitalVelocity]
    constructor
    · simp only [AccretionDisk.keplerianOmega]
      norm_num
      split_ifs with h
      · norm_num
      · push_neg at h
        have hd : (0 : ℝ) < 1 / 10000000000 := by norm_num
        refine lt_min ?_ (by norm_num)
        refine div_pos (mul_pos (Real.sqrt_pos.mpr ?_) ?_) (lt_of_lt_of_le hd h)
        · norm_num
        · positivity
    · simp only [AccretionDisk.keplerianOmega]
      norm_num
      split_ifs with h
      · norm_num
      · exact lt_of_le_of_lt (min_le_right _ _) (by norm_num)
  exact ⟨hpair, dopplerFactor_blueshift_redshift ⟨1, 0, 6, 15, 10000000⟩ 10
    hpair.1 hpair.2⟩

/-- Host `AccretionDisk.temperature` in closed form outside the inner
edge, for the code's normalization M = 1: the Novikov–Thorne formula
capped at the peak temperature. -/
theorem temperature_eq_min (d : AccretionDisk) (r : ℝ) (hM : d.M = 1)
    (h0 : 0 < d.innerRadius) (hr : d.innerRadius < r) :
    d.temperature r = min (d.T0 * (1 / r ^ 3) ^ ((1 : ℝ) / 4) *
      (1 - Real.sqrt (d.innerRadius / r)) ^ ((1 : ℝ) / 4)) d.T0 := by
  have hrpos : 0 < r := by linarith
  rw [AccretionDisk.temperature, if_neg (not_le.mpr hr), hM]
  simp only [div_one]
  have hfpos : 0 < 1 - Real.sqrt (d.innerRadius / r) := by
    have hlt : d.innerRadius / r < 1 := (div_lt_one hrpos).mpr hr
    have hs := (Real.sqrt_lt' one_pos).mpr (by rw [one_pow]; exact hlt)
    linarith
  rw [if_neg (not_le.mpr hfpos)]
  congr 2
  rw [show (1 : ℝ) / (r * r * r) = 1 / r ^ 3 by ring]

/-- GLSL `diskTemperature` in closed form outside the inner edge for
M = 1: the same formula with no ceiling. -/
theorem diskTemperature_eq (r rISCO T0v : ℝ)
    (h0 : 0 < rISCO) (hr : rISCO < r) :
    diskTemperature r rISCO T0v 1 = T0v * (1 / r ^ 3) ^ ((1 : ℝ) / 4) *
      (1 - Real.sqrt (rISCO / r)) ^ ((1 : ℝ) / 4) := by
  have hrpos : 0 < r := by linarith
  rw [diskTemperature, if_neg (not_le.mpr hr)]
  simp only [div_one]
  have hfpos : 0 < 1 - Real.sqrt (rISCO / r) := by
    have hlt : rISCO / r < 1 := (div_lt_one hrpos).mpr hr
    have hs := (Real.sqrt_lt' one_pos).mpr (by rw [one_pow]; exact hlt)
    linarith
  rw [if_neg (not_le.mpr hfpos)]
  congr 2
  rw [show (1 : ℝ) / (r * r * r) = 1 / r ^ 3 by ring]

/-- GLSL `diskTemperatureNT` (the variant `diskEmission` calls) in closed
form for a = 0, M = 1: for radii beyond the 1.001·rISCO cutoff it equals
the plain Novikov–Thorne formula clamped at 50000. -/
theorem diskTemperatureNT_eq (r rISCO T0v : ℝ) (hT : 0 ≤ T0v)
    (h0 : 0 < rISCO) (hr : rISCO * 1.001 < r) :
    diskTemperatureNT r rISCO T0v 1 0 =
      min (T0v * (1 / r ^ 3) ^ ((1 : ℝ) / 4) *
        (1 - Real.sqrt (rISCO / r)) ^ ((1 : ℝ) / 4)) 50000 := by
  have hrpos : 0 < r := by nlinarith
  have hlt : rISCO < r := by nlinarith
  have hsx : Real.sqrt (r / 1) = Real.sqrt r := by rw [div_one]
  have hsi : Real.sqrt (rISCO / 1) = Real.sqrt rISCO := by rw [div_one]
  have hsr : 0 < Real.sqrt r := Real.sqrt_pos.mpr hrpos
  have hsqlt : Real.sqrt rISCO < Real.sqrt r := Real.sqrt_lt_sqrt h0.le hlt
  have hfpos : 0 < 1 - Real.sqrt rISCO / Real.sqrt r := by
    have h1 : Real.sqrt rISCO / Real.sqrt r < 1 := (div_lt_one hsr).mpr hsqlt
    linarith
  rw [diskTemperatureNT, if_neg (not_le.mpr hr)]
  simp only [hsx, hsi]
  rw [if_neg (not_le.mpr hfpos)]
  have hyy : Real.sqrt r * Real.sqrt r = r := Real.mul_self_sqrt hrpos.le
  rw [hyy]
  have hzero : (0 : ℝ) / 1 / (r * Real.sqrt r) = 0 := by
    rw [zero_div, zero_div]
  rw [hzero]
  have hfq : (1 - Real.sqrt rISCO / Real.sqrt r) * (1 + 0) =
      1 - Real.sqrt rISCO / Real.sqrt r := by ring
  rw [hfq]
  have hmaxf : max (1 - Real.sqrt rISCO / Real.sqrt r) 0 =
      1 - Real.sqrt rISCO / Real.sqrt r := max_eq_left hfpos.le
  rw [hmaxf]
  have hdivsqrt : Real.sqrt rISCO / Real.sqrt r = Real.sqrt (rISCO / r) :=
    (Real.sqrt_div h0.le r).symm
  have hsplit : (1 - Real.sqrt rISCO / Real.sqrt r) / (r * r * r) =
      (1 / r ^ 3) * (1 - Real.sqrt (rISCO / r)) := by
    rw [hdivsqrt]
    ring
  rw [hsplit]
  have hrpow : ((1 / r ^ 3) * (1 - Real.sqrt (rISCO / r))) ^ ((1 : ℝ) / 4) =
      (1 / r ^ 3) ^ ((1 : ℝ) / 4) *
        (1 - Real.sqrt (rISCO / r)) ^ ((1 : ℝ) / 4) := by
    refine Real.mul_rpow (by positivity) ?_
    rw [← hdivsqrt]
    linarith
  rw [hrpow]
  have htemp0 : 0 ≤ T0v * ((1 / r ^ 3) ^ ((1 : ℝ) / 4) *
      (1 - Real.sqrt (rISCO / r)) ^ ((1 : ℝ) / 4)) := by
    have h1 : (0 : ℝ) ≤ (1 / r ^ 3) ^ ((1 : ℝ) / 4) :=
      Real.rpow_nonneg (by positivity) _
    have h2 : (0 : ℝ) ≤ (1 - Real.sqrt (rISCO / r)) ^ ((1 : ℝ) / 4) := by
      apply Real.rpow_nonneg
      rw [← hdivsqrt]
      linarith
    positivity
  rw [glslClamp, max_eq_left htemp0]
  congr 1
  ring

/-- The dimensionless ISCO at zero spin is exactly 6. -/
theorem iscoX_zero : iscoX 0 = 6 := by
  have hZ1 : Z1def 0 = 3 := by
    rw [Z1def]
    norm_num [Real.one_rpow]
  have hZ2 : Z2def 0 = 3 := by
    rw [Z2def, hZ1, show (3 * ((0 : ℝ) * 0) + 3 * 3) = 3 ^ 2 by norm_num,
      Real.sqrt_sq (by norm_num)]
  have hs : iscoSqrtTerm 0 = 0 := by
    rw [iscoSqrtTerm, hZ1]
    norm_num
  rw [iscoX, hZ2, hs]
  norm_num

/-- **C6 counterexample**: at (r, rISCO, T0, M) = (7, 6, 10^7, 1) the
GLSL `diskTemperature` exceeds 50000 K, so it does not equal the claimed
formula clamped to a 50,000 K ceiling (the simple shader profile applies
no ceiling; the 50,000 K clamp lives in `diskTemperatureNT`). -/
theorem diskTemperature_ceiling_cex :
    diskTemperature 7 6 10000000 1 ≠
      min (10000000 * ((1 : ℝ) / 7 ^ 3) ^ ((1 : ℝ) / 4) *
        (1 - Real.sqrt (6 / 7)) ^ ((1 : ℝ) / 4)) 50000 := by
  have heq := diskTemperature_eq 7 6 10000000 (by norm_num) (by norm_num)
  have hf : (1 : ℝ) / 100 < 1 - Real.sqrt (6 / 7) := by
    have hs : Real.sqrt (6 / 7) < 99 / 100 :=
      (Real.sqrt_lt' (by norm_num)).mpr (by norm_num)
    linarith
  have hf0 : (0 : ℝ) ≤ 1 - Real.sqrt (6 / 7) := by linarith
  have hcomb : ((1 : ℝ) / 7 ^ 3) ^ ((1 : ℝ) / 4) *
      (1 - Real.sqrt (6 / 7)) ^ ((1 : ℝ) / 4) =
      ((1 / 7 ^ 3) * (1 - Real.sqrt (6 / 7))) ^ ((1 : ℝ) / 4) :=
    (Real.mul_rpow (by norm_num) hf0).symm
  have hbase : ((1 : ℝ) / 200) ^ (4 : ℕ) <
      (1 / 7 ^ 3) * (1 - Real.sqrt (6 / 7)) := by linarith [hf]
  have hmono := Real.rpow_lt_rpow (by positivity) hbase
    (by norm_num : (0 : ℝ) < 1 / 4)
  have hid : (((1 : ℝ) / 200) ^ (4 : ℕ)) ^ ((1 : ℝ) / 4) = 1 / 200 := by
    rw [← Real.rpow_natCast ((1 : ℝ) / 200) 4, ← Real.rpow_mul (by norm_num)]
    norm_num
  rw [hid] at hmono
  have hbig : (50000 : ℝ) < 10000000 * ((1 : ℝ) / 7 ^ 3) ^ ((1 : ℝ) / 4) *
      (1 - Real.sqrt (6 / 7)) ^ ((1 : ℝ) / 4) := by
    rw [mul_assoc, hcomb]
    linarith [hmono]
  rw [heq]
  exact (lt_of_le_of_lt (min_le_right _ _) hbig).ne'

/-- **C6 (amended)**: temperatures vanish at or inside the inner edge in
both implementations; outside it (with the code's M = 1 normalization)
the host `temperature` equals the Novikov–Thorne formula capped at the
peak T0, the GLSL `diskTemperature` equals the same formula with no
ceiling, and the GLSL `diskTemperatureNT` (the variant `diskEmission`
renders with) equals, at zero spin and beyond its 1.001·rISCO cutoff,
the formula clamped to 50,000 K; and for the default Schwarzschild disk
(M = 1, a = 0, inner edge = ISCO = 6, T0 = 10^7) the profile satisfies
0 < T(20) < T(15) < T(10). -/
theorem temperature_profile_amended :
    (∀ (d : AccretionDisk) (r : ℝ), r ≤ d.innerRadius →
      d.temperature r = 0) ∧
    (∀ r rISCO T0v M : ℝ, r ≤ rISCO → diskTemperature r rISCO T0v M = 0) ∧
    (∀ (d : AccretionDisk) (r : ℝ), d.M = 1 → 0 < d.innerRadius →
      d.innerRadius < r →
      d.temperature r = min (d.T0 * (1 / r ^ 3) ^ ((1 : ℝ) / 4) *
        (1 - Real.sqrt (d.innerRadius / r)) ^ ((1 : ℝ) / 4)) d.T0) ∧
    (∀ r rISCO T0v : ℝ, 0 < rISCO → rISCO < r →
      diskTemperature r rISCO T0v 1 = T0v * (1 / r ^ 3) ^ ((1 : ℝ) / 4) *
        (1 - Real.sqrt (rISCO / r)) ^ ((1 : ℝ) / 4)) ∧
    (∀ r rISCO T0v : ℝ, 0 ≤ T0v → 0 < rISCO → rISCO * 1.001 < r →
      diskTemperatureNT r rISCO T0v 1 0 =
        min (T0v * (1 / r ^ 3) ^ ((1 : ℝ) / 4) *
          (1 - Real.sqrt (rISCO / r)) ^ ((1 : ℝ) / 4)) 50000) ∧
    (0 < (mkAccretionDisk 1 0 none 15 10000000).temperature 20 ∧
      (mkAccretionDisk 1 0 none 15 10000000).temperature 20 <
        (mkAccretionDisk 1 0 none 15 10000000).temperature 15 ∧
      (mkAccretionDisk 1 0 none 15 10000000).temperature 15 <
        (mkAccretionDisk 1 0 none 15 10000000).temperature 10) := by
  refine ⟨?_, ?_, ?_, ?_, ?_, ?_⟩
  · intro d r h
    rw [AccretionDisk.temperature, if_pos h]
  · intro r rISCO T0v M h
    rw [diskTemperature, if_pos h]
  · exact temperature_eq_min
  · exact diskTemperature_eq
  · exact diskTemperatureNT_eq
  · have hinner : (mkAccretionDisk 1 0 none 15 10000000).innerRadius = 6 := by
      show (none : Option ℝ).getD (1 * iscoX ((0 : ℝ) / 1)) = 6
      rw [Option.getD_none, zero_div, iscoX_zero]
      norm_num
    have hT0 : (mkAccretionDisk 1 0 none 15 10000000).T0 = 10000000 := rfl
    have hM : (mkAccretionDisk 1 0 none 15 10000000).M = 1 := rfl
    have hval : ∀ r : ℝ, 6 < r →
        (mkAccretionDisk 1 0 none 15 10000000).temperature r =
          min (10000000 * (1 / r ^ 3) ^ ((1 : ℝ) / 4) *
            (1 - Real.sqrt (6 / r)) ^ ((1 : ℝ) / 4)) 10000000 := by
      intro r hr
      have h := temperature_eq_min (mkAccretionDisk 1 0 none 15 10000000) r hM
        (by rw [hinner]; norm_num) (by rw [hinner]; exact hr)
      rwa [hinner, hT0] at h
    have hb10 : Real.sqrt (6 / 10) < 31 / 40 :=
      (Real.sqrt_lt' (by norm_num)).mpr (by norm_num)
    have hb10l : (0 : ℝ) < Real.sqrt (6 / 10) := Real.sqrt_pos.mpr (by norm_num)
    have hb15u : Real.sqrt (6 / 15) < 633 / 1000 :=
      (Real.sqrt_lt' (by norm_num)).mpr (by norm_num)
    have hb15l : (632 : ℝ) / 1000 < Real.sqrt (6 / 15) :=
      (Real.lt_sqrt (by norm_num)).mpr (by norm_num)
    have hb20u : Real.sqrt (6 / 20) < 1 :=
      (Real.sqrt_lt' (by norm_num)).mpr (by norm_num)
    have hb20l : (547 : ℝ) / 1000 < Real.sqrt (6 / 20) :=
      (Real.lt_sqrt (by norm_num)).mpr (by norm_num)
    have hf10 : (0 : ℝ) ≤ 1 - Real.sqrt (6 / 10) := by linarith
    have hf15 : (0 : ℝ) ≤ 1 - Real.sqrt (6 / 15) := by linarith
    have hf20 : (0 : ℝ) ≤ 1 - Real.sqrt (6 / 20) := by linarith
    have hcomb : ∀ r : ℝ, 0 < r → 0 ≤ 1 - Real.sqrt (6 / r) →
        (1 / r ^ 3 : ℝ) ^ ((1 : ℝ) / 4) *
          (1 - Real.sqrt (6 / r)) ^ ((1 : ℝ) / 4) =
          ((1 / r ^ 3) * (1 - Real.sqrt (6 / r))) ^ ((1 : ℝ) / 4) := by
      intro r hr hfr
      exact (Real.mul_rpow (by positivity) hfr).symm
    have hstrip : ∀ r : ℝ, 0 < r → 0 ≤ 1 - Real.sqrt (6 / r) →
        (1 / r ^ 3) * (1 - Real.sqrt (6 / r)) < 1 →
        min (10000000 * (1 / r ^ 3) ^ ((1 : ℝ) / 4) *
            (1 - Real.sqrt (6 / r)) ^ ((1 : ℝ) / 4)) 10000000 =
          10000000 * ((1 / r ^ 3) * (1 - Real.sqrt (6 / r))) ^ ((1 : ℝ) / 4) := by
      intro r hr hfr hlt1
      rw [mul_assoc, hcomb r hr hfr]
      refine min_eq_left ?_
      have hle1 : ((1 / r ^ 3) * (1 - Real.sqrt (6 / r))) ^ ((1 : ℝ) / 4) ≤ 1 :=
        Real.rpow_le_one (by positivity) hlt1.le (by norm_num)
      linarith [hle1]
    have hv10 := hval 10 (by norm_num)
    have hv15 := hval 15 (by norm_num)
    have hv20 := hval 20 (by norm_num)
    rw [hstrip 10 (by norm_num) hf10 (by linarith [hb10l])] at hv10
    rw [hstrip 15 (by norm_num) hf15 (by linarith [hb15l])] at hv15
    rw [hstrip 20 (by norm_num) hf20 (by linarith [hb20l])] at hv20
    have hbase20pos : (0 : ℝ) < (1 / 20 ^ 3) * (1 - Real.sqrt (6 / 20)) := by
      linarith [hb20u]
    have hcmp1 : ((1 : ℝ) / 15 ^ 3) * (1 - Real.sqrt (6 / 15)) <
        (1 / 10 ^ 3) * (1 - Real.sqrt (6 / 10)) := by
      linarith [hb10, hb15l]
    have hcmp2 : ((1 : ℝ) / 20 ^ 3) * (1 - Real.sqrt (6 / 20)) <
        (1 / 15 ^ 3) * (1 - Real.sqrt (6 / 15)) := by
      linarith [hb15u, hb20l]
    refine ⟨?_, ?_, ?_⟩
    · rw [hv20]
      have := Real.rpow_pos_of_pos hbase20pos ((1 : ℝ) / 4)
      linarith [this]
    · rw [hv20, hv15]
      have := Real.rpow_lt_rpow hbase20pos.le hcmp2
        (by norm_num : (0 : ℝ) < 1 / 4)
      linarith [this]
    · rw [hv15, hv10]
      have hb15pos : (0 : ℝ) < (1 / 15 ^ 3) * (1 - Real.sqrt (6 / 15)) := by
        linarith [hb15u]
      have := Real.rpow_lt_rpow hb15pos.le hcmp1
        (by norm_num : (0 : ℝ) < 1 / 4)
      linarith [this]

/-- Witness for the amended C6: concrete instantiations of each clause
(Schwarzschild disk with inner edge 6, T0 = 10^7). -/
theorem temperature_profile_amended_witness :
    AccretionDisk.temperature ⟨1, 0, 6, 15, 10000000⟩ 3 = 0 ∧
      diskTemperature 3 6 10000000 1 = 0 ∧
      AccretionDisk.temperature ⟨1, 0, 6, 15, 10000000⟩ 12 =
        min (10000000 * ((1 : ℝ) / 12 ^ 3) ^ ((1 : ℝ) / 4) *
          (1 - Real.sqrt (6 / 12)) ^ ((1 : ℝ) / 4)) 10000000 ∧
      diskTemperature 12 6 10000000 1 =
        10000000 * ((1 : ℝ) / 12 ^ 3) ^ ((1 : ℝ) / 4) *
          (1 - Real.sqrt (6 / 12)) ^ ((1 : ℝ) / 4) ∧
      diskTemperatureNT 12 6 10000000 1 0 =
        min (10000000 * ((1 : ℝ) / 12 ^ 3) ^ ((1 : ℝ) / 4) *
          (1 - Real.sqrt (6 / 12)) ^ ((1 : ℝ) / 4)) 50000 := by
  refine ⟨temperature_profile_amended.1 _ 3 (by norm_num),
    temperature_profile_amended.2.1 3 6 10000000 1 (by norm_num),
    ?_, ?_, ?_⟩
  · exact temperature_profile_amended.2.2.1 ⟨1, 0, 6, 15, 10000000⟩ 12 rfl
      (by norm_num) (by norm_num)
  · exact temperature_profile_amended.2.2.2.1 12 6 10000000
      (by norm_num) (by norm_num)
  · exact temperature_profile_amended.2.2.2.2.1 12 6 10000000
      (by norm_num) (by norm_num) (by norm_num)

/-- The radius computed by the Kerr branch of the coordinate transform is
nonnegative, solves the defining quartic, and dominates |z|. -/
theorem blRadius_facts (a x y z : ℝ) :
    ∀ R : ℝ, R = blRadius a x y z →
    0 ≤ R ∧ R ^ 4 = (x * x + y * y + z * z - a * a) * R ^ 2 + a * a * (z * z)
      ∧ |z| ≤ R := by
  intro R hR
  rw [blRadius] at hR
  set b := x * x + y * y + z * z - a * a with hb
  have hdisc : b * b - 4 * (-(a * a) * (z * z)) =
      b ^ 2 + 4 * (a * a) * z ^ 2 := by ring
  have hd0 : (0 : ℝ) ≤ b ^ 2 + 4 * (a * a) * z ^ 2 := by
    nlinarith [sq_nonneg b, sq_nonneg (a * z)]
  rw [hdisc, max_eq_right hd0] at hR
  set s := Real.sqrt (b ^ 2 + 4 * (a * a) * z ^ 2) with hs
  have hs0 : 0 ≤ s := Real.sqrt_nonneg _
  have hssq : s ^ 2 = b ^ 2 + 4 * (a * a) * z ^ 2 := Real.sq_sqrt hd0
  have hsb : -b ≤ s := by
    have h1 : Real.sqrt (b ^ 2) ≤ s := Real.sqrt_le_sqrt (by nlinarith)
    rw [Real.sqrt_sq_eq_abs] at h1
    linarith [neg_abs_le b]
  have hr20 : (0 : ℝ) ≤ (b + s) / 2 := by linarith
  rw [max_eq_right hr20] at hR
  have hR0 : 0 ≤ R := hR ▸ Real.sqrt_nonneg _
  have hR2 : R ^ 2 = (b + s) / 2 := hR ▸ Real.sq_sqrt hr20
  have hquart : R ^ 4 = b * R ^ 2 + a * a * z ^ 2 := by
    have h2 : 2 * R ^ 2 - b = s := by rw [hR2]; ring
    have h4 : (2 * R ^ 2 - b) ^ 2 = b ^ 2 + 4 * (a * a) * z ^ 2 := by
      rw [h2]; exact hssq
    nlinarith [h4]
  have hzR : |z| ≤ R := by
    have hsz : 2 * z ^ 2 - b ≤ s := by
      rcases le_or_lt (2 * z ^ 2 - b) 0 with h | h
      · linarith
      · have hle : (2 * z ^ 2 - b) ^ 2 ≤ b ^ 2 + 4 * (a * a) * z ^ 2 := by
          nlinarith [sq_nonneg x, sq_nonneg y, sq_nonneg z]
        have := (Real.le_sqrt h.le hd0).mpr hle
        linarith [this]
    have hz2 : z ^ 2 ≤ R ^ 2 := by rw [hR2]; linarith
    exact le_of_pow_le_pow_left₀ two_ne_zero hR0
      (by rwa [sq_abs] : |z| ^ 2 ≤ R ^ 2)
  exact ⟨hR0, by rw [hquart]; ring, hzR⟩

/-- `cos(atan2 y x) · √(x²+y²) = x` away from the origin. -/
theorem atan2_cos_mul (y x : ℝ) (h : x * x + y * y ≠ 0) :
    Real.cos (atan2 y x) * Real.sqrt (x * x + y * y) = x := by
  have hz : (⟨x, y⟩ : ℂ) ≠ 0 := by
    intro hc
    apply h
    have hx : x = 0 := by simpa using congrArg Complex.re hc
    have hy : y = 0 := by simpa using congrArg Complex.im hc
    rw [hx, hy]
    ring
  have habs : Complex.abs ⟨x, y⟩ = Real.sqrt (x * x + y * y) := by
    rw [Complex.abs_apply, Complex.normSq_mk]
  have hc := Complex.cos_arg hz
  rw [atan2, hc, habs]
  have hpos : 0 < Real.sqrt (x * x + y * y) := by
    refine Real.sqrt_pos.mpr ?_
    rcases lt_or_gt_of_ne h with h1 | h1
    · nlinarith [mul_self_nonneg x, mul_self_nonneg y]
    · exact h1
  field_simp

/-- `sin(atan2 y x) · √(x²+y²) = y` away from the origin. -/
theorem atan2_sin_mul (y x : ℝ) (h : x * x + y * y ≠ 0) :
    Real.sin (atan2 y x) * Real.sqrt (x * x + y * y) = y := by
  have habs : Complex.abs ⟨x, y⟩ = Real.sqrt (x * x + y * y) := by
    rw [Complex.abs_apply, Complex.normSq_mk]
  have hs := Complex.sin_arg (⟨x, y⟩ : ℂ)
  rw [atan2, hs, habs]
  have hpos : 0 < Real.sqrt (x * x + y * y) := by
    refine Real.sqrt_pos.mpr ?_
    rcases lt_or_gt_of_ne h with h1 | h1
    · nlinarith [mul_self_nonneg x, mul_self_nonneg y]
    · exact h1
  field_simp

/-- Exact inversion of `boyerLindquistToCartesian` for a radius solving
the Kerr quartic, any azimuth whose cosine/sine reconstruct (x, y). -/
theorem roundtrip_core (a x y z r phi : ℝ) (hr0 : 0 < r)
    (hquart : r ^ 4 = (x * x + y * y + z * z - a * a) * r ^ 2 + a * a * (z * z))
    (hrz : |z| ≤ r)
    (hcos : x * x + y * y ≠ 0 → Real.cos phi * Real.sqrt (x * x + y * y) = x)
    (hsin : x * x + y * y ≠ 0 → Real.sin phi * Real.sqrt (x * x + y * y) = y) :
    boyerLindquistToCartesian a r (Real.arccos (max (-1) (min 1 (z / r)))) phi =
      ⟨x, y, z⟩ := by
  have hzr1 : z / r ≤ 1 := by
    rw [div_le_one hr0]
    calc z ≤ |z| := le_abs_self z
    _ ≤ r := hrz
  have hzr2 : -1 ≤ z / r := by
    rw [le_div_iff hr0]
    have := neg_abs_le z
    linarith
  have hclamp : max (-1 : ℝ) (min 1 (z / r)) = z / r := by
    rw [min_eq_right hzr1, max_eq_right hzr2]
  rw [hclamp]
  have hcosθ : Real.cos (Real.arccos (z / r)) = z / r :=
    Real.cos_arccos hzr2 hzr1
  have hsinθ : Real.sin (Real.arccos (z / r)) = Real.sqrt (1 - (z / r) ^ 2) :=
    Real.sin_arccos _
  have hkey : (r * r + a * a) * (1 - (z / r) ^ 2) = x * x + y * y := by
    have h1 : (r * r + a * a) * (r * r - z * z) = r * r * (x * x + y * y) := by
      nlinarith [hquart]
    have hrne : r ≠ 0 := ne_of_gt hr0
    field_simp
    nlinarith [h1]
  have hA : Real.sqrt (r * r + a * a) * Real.sqrt (1 - (z / r) ^ 2) =
      Real.sqrt (x * x + y * y) := by
    rw [← Real.sqrt_mul
      (add_nonneg (mul_self_nonneg r) (mul_self_nonneg a)), hkey]
  rw [boyerLindquistToCartesian]
  simp only [Vec3.mk.injEq]
  refine ⟨?_, ?_, ?_⟩
  · rw [hsinθ, hA]
    rcases eq_or_ne (x * x + y * y) 0 with hxy | hxy
    · have hx0 : x = 0 := by nlinarith [mul_self_nonneg x, mul_self_nonneg y]
      rw [hxy, Real.sqrt_zero, hx0, zero_mul]
    · rw [mul_comm]
      exact hcos hxy
  · rw [hsinθ, hA]
    rcases eq_or_ne (x * x + y * y) 0 with hxy | hxy
    · have hy0 : y = 0 := by nlinarith [mul_self_nonneg x, mul_self_nonneg y]
      rw [hxy, Real.sqrt_zero, hy0, zero_mul]
    · rw [mul_comm]
      exact hsin hxy
  · rw [hcosθ]
    field_simp

/-- Exact round trip through the Kerr branch of the transform, for any
point whose computed Boyer–Lindquist radius exceeds EPSILON. -/
theorem roundtrip_kerr (a x y z : ℝ) (ha : ¬ |a| < EPSILON)
    (hr : EPSILON < (cartesianToBoyerLindquist a x y z).r) :
    boyerLindquistToCartesian a (cartesianToBoyerLindquist a x y z).r
      (cartesianToBoyerLindquist a x y z).theta
      (cartesianToBoyerLindquist a x y z).phi = ⟨x, y, z⟩ := by
  obtain ⟨hR0, hquart, hzR⟩ := blRadius_facts a x y z (blRadius a x y z) rfl
  rw [cartesianToBoyerLindquist, if_neg ha] at hr ⊢
  replace hr : EPSILON < blRadius a x y z := hr
  have hRpos : 0 < blRadius a x y z :=
    lt_trans (by norm_num [EPSILON]) hr
  show boyerLindquistToCartesian a (blRadius a x y z)
      (if blRadius a x y z > EPSILON then
        Real.arccos (max (-1) (min 1 (z / blRadius a x y z))) else 0)
      (if atan2 y x < 0 then atan2 y x + 2 * π else atan2 y x) = ⟨x, y, z⟩
  rw [if_pos hr]
  refine roundtrip_core a x y z _ _ hRpos hquart hzR ?_ ?_
  · intro hxy
    split_ifs with h
    · rw [Real.cos_add_two_pi]
      exact atan2_cos_mul y x hxy
    · exact atan2_cos_mul y x hxy
  · intro hxy
    split_ifs with h
    · rw [Real.sin_add_two_pi]
      exact atan2_sin_mul y x hxy
    · exact atan2_sin_mul y x hxy

/-- Round trip through the Schwarzschild fast path: z is reproduced
exactly, x and y to within |a| < EPSILON (the back-transform still uses
the true spin). -/
theorem roundtrip_sph (a x y z : ℝ) (ha : |a| < EPSILON)
    (hr : EPSILON < (cartesianToBoyerLindquist a x y z).r) :
    |(boyerLindquistToCartesian a (cartesianToBoyerLindquist a x y z).r
        (cartesianToBoyerLindquist a x y z).theta
        (cartesianToBoyerLindquist a x y z).phi).x - x| ≤ |a| ∧
    |(boyerLindquistToCartesian a (cartesianToBoyerLindquist a x y z).r
        (cartesianToBoyerLindquist a x y z).theta
        (cartesianToBoyerLindquist a x y z).phi).y - y| ≤ |a| ∧
    (boyerLindquistToCartesian a (cartesianToBoyerLindquist a x y z).r
        (cartesianToBoyerLindquist a x y z).theta
        (cartesianToBoyerLindquist a x y z).phi).z = z := by
  rw [cartesianToBoyerLindquist, if_pos ha] at hr ⊢
  replace hr : EPSILON < Real.sqrt (x * x + y * y + z * z) := hr
  have hRpos : 0 < Real.sqrt (x * x + y * y + z * z) :=
    lt_trans (by norm_num [EPSILON]) hr
  have hsum0 : (0 : ℝ) ≤ x * x + y * y + z * z := by
    nlinarith [mul_self_nonneg x, mul_self_nonneg y, mul_self_nonneg z]
  have hR2 : Real.sqrt (x * x + y * y + z * z) ^ 2 = x * x + y * y + z * z :=
    Real.sq_sqrt hsum0
  set R := Real.sqrt (x * x + y * y + z * z) with hRdef
  have hquart0 : R ^ 4 = (x * x + y * y + z * z - 0 * 0) * R ^ 2 +
      0 * 0 * (z * z) := by nlinarith [hR2]
  have hzR : |z| ≤ R := by
    have hz2 : z ^ 2 ≤ R ^ 2 := by
      nlinarith [hR2, mul_self_nonneg x, mul_self_nonneg y]
    exact le_of_pow_le_pow_left₀ two_ne_zero hRpos.le (by rwa [sq_abs])
  have hcore := roundtrip_core 0 x y z R
    (if atan2 y x < 0 then atan2 y x + 2 * π else atan2 y x) hRpos hquart0 hzR
    (by
      intro hxy
      split_ifs with h
      · rw [Real.cos_add_two_pi]
        exact atan2_cos_mul y x hxy
      · exact atan2_cos_mul y x hxy)
    (by
      intro hxy
      split_ifs with h
      · rw [Real.sin_add_two_pi]
        exact atan2_sin_mul y x hxy
      · exact atan2_sin_mul y x hxy)
  have hzr1 : z / R ≤ 1 := by
    rw [div_le_one hRpos]
    calc z ≤ |z| := le_abs_self z
    _ ≤ R := hzR
  have hzr2 : -1 ≤ z / R := by
    rw [le_div_iff hRpos]
    have := neg_abs_le z
    linarith
  have hclamp : max (-1 : ℝ) (min 1 (z / R)) = z / R := by
    rw [min_eq_right hzr1, max_eq_right hzr2]
  rw [hclamp] at hcore
  show |(boyerLindquistToCartesian a R
      (if R > EPSILON then Real.arccos (z / R) else 0)
      (if atan2 y x < 0 then atan2 y x + 2 * π else atan2 y x)).x - x| ≤ |a| ∧
    |(boyerLindquistToCartesian a R
      (if R > EPSILON then Real.arccos (z / R) else 0)
      (if atan2 y x < 0 then atan2 y x + 2 * π else atan2 y x)).y - y| ≤ |a| ∧
    (boyerLindquistToCartesian a R
      (if R > EPSILON then Real.arccos (z / R) else 0)
      (if atan2 y x < 0 then atan2 y x + 2 * π else atan2 y x)).z = z
  rw [if_pos hr]
  have hR00 : Real.sqrt (R * R + 0 * 0) = R := by
    rw [show R * R + 0 * 0 = R * R by ring, Real.sqrt_mul_self hRpos.le]
  have hx0 : Real.sqrt (R * R + 0 * 0) * Real.sin (Real.arccos (z / R)) *
      Real.cos (if atan2 y x < 0 then atan2 y x + 2 * π else atan2 y x) = x :=
    congrArg Vec3.x hcore
  have hy0 : Real.sqrt (R * R + 0 * 0) * Real.sin (Real.arccos (z / R)) *
      Real.sin (if atan2 y x < 0 then atan2 y x + 2 * π else atan2 y x) = y :=
    congrArg Vec3.y hcore
  have hz0 : R * Real.cos (Real.arccos (z / R)) = z :=
    congrArg Vec3.z hcore
  rw [hR00] at hx0 hy0
  have hsuble : Real.sqrt (R * R + a * a) - R ≤ |a| := by
    have h1 : Real.sqrt (R * R + a * a) ≤ Real.sqrt ((R + |a|) ^ 2) := by
      refine Real.sqrt_le_sqrt ?_
      have := abs_nonneg a
      nlinarith [sq_abs a, mul_nonneg hRpos.le (abs_nonneg a)]
    rw [Real.sqrt_sq (by positivity)] at h1
    linarith
  have hsub0 : 0 ≤ Real.sqrt (R * R + a * a) - R := by
    have h1 : Real.sqrt (R * R) ≤ Real.sqrt (R * R + a * a) :=
      Real.sqrt_le_sqrt (by nlinarith [mul_self_nonneg a])
    rw [Real.sqrt_mul_self hRpos.le] at h1
    linarith
  have habs : ∀ t u : ℝ, |Real.sin t * Real.cos u| ≤ 1 := by
    intro t u
    rw [abs_mul]
    exact mul_le_one₀ (Real.abs_sin_le_one t) (abs_nonneg _)
      (Real.abs_cos_le_one u)
  have habs' : ∀ t u : ℝ, |Real.sin t * Real.sin u| ≤ 1 := by
    intro t u
    rw [abs_mul]
    exact mul_le_one₀ (Real.abs_sin_le_one t) (abs_nonneg _)
      (Real.abs_sin_le_one u)
  rw [boyerLindquistToCartesian]
  refine ⟨?_, ?_, ?_⟩
  · show |Real.sqrt (R * R + a * a) * Real.sin (Real.arccos (z / R)) *
      Real.cos (if atan2 y x < 0 then atan2 y x + 2 * π else atan2 y x) - x|
      ≤ |a|
    have key : Real.sqrt (R * R + a * a) * Real.sin (Real.arccos (z / R)) *
        Real.cos (if atan2 y x < 0 then atan2 y x + 2 * π else atan2 y x) - x =
        (Real.sqrt (R * R + a * a) - R) * (Real.sin (Real.arccos (z / R)) *
          Real.cos (if atan2 y x < 0 then atan2 y x + 2 * π else atan2 y x)) := by
      linear_combination hx0
    rw [key, abs_mul, abs_of_nonneg hsub0]
    calc (Real.sqrt (R * R + a * a) - R) * |Real.sin (Real.arccos (z / R)) *
        Real.cos (if atan2 y x < 0 then atan2 y x + 2 * π else atan2 y x)| ≤
        (Real.sqrt (R * R + a * a) - R) * 1 :=
          mul_le_mul_of_nonneg_left (habs _ _) hsub0
      _ ≤ |a| := by linarith
  · show |Real.sqrt (R * R + a * a) * Real.sin (Real.arccos (z / R)) *
      Real.sin (if atan2 y x < 0 then atan2 y x + 2 * π else atan2 y x) - y|
      ≤ |a|
    have key : Real.sqrt (R * R + a * a) * Real.sin (Real.arccos (z / R)) *
        Real.sin (if atan2 y x < 0 then atan2 y x + 2 * π else atan2 y x) - y =
        (Real.sqrt (R * R + a * a) - R) * (Real.sin (Real.arccos (z / R)) *
          Real.sin (if atan2 y x < 0 then atan2 y x + 2 * π else atan2 y x)) := by
      linear_combination hy0
    rw [key, abs_mul, abs_of_nonneg hsub0]
    calc (Real.sqrt (R * R + a * a) - R) * |Real.sin (Real.arccos (z / R)) *
        Real.sin (if atan2 y x < 0 then atan2 y x + 2 * π else atan2 y x)| ≤
        (Real.sqrt (R * R + a * a) - R) * 1 :=
          mul_le_mul_of_nonneg_left (habs' _ _) hsub0
      _ ≤ |a| := by linarith
  · exact hz0


/-- Lower bound on the Kerr-branch radius: when the flat radius exceeds
the spin comfortably, the computed Boyer-Lindquist radius is at least 1. -/
lemma blRadius_ge_one (a x y z : ℝ) (h : 2 ≤ x * x + y * y + z * z - a * a) :
    1 ≤ blRadius a x y z := by
  rw [blRadius]
  have h0 : 0 ≤ Real.sqrt (max 0 ((x * x + y * y + z * z - a * a) *
      (x * x + y * y + z * z - a * a) - 4 * (-(a * a) * (z * z)))) :=
    Real.sqrt_nonneg _
  have h1 : (1 : ℝ) ≤ max 0 ((x * x + y * y + z * z - a * a +
      Real.sqrt (max 0 ((x * x + y * y + z * z - a * a) *
        (x * x + y * y + z * z - a * a) - 4 * (-(a * a) * (z * z))))) / 2) :=
    le_max_of_le_right (by linarith)
  calc (1 : ℝ) = Real.sqrt 1 := Real.sqrt_one.symm
    _ ≤ _ := Real.sqrt_le_sqrt h1

/-- **C8 counterexample**: at spin a = 1 the point (1/2, 0, 0) -- away
from the poles, with a valid spin -- maps to Boyer-Lindquist radius 0
(it lies inside the coordinate disk x² + y² ≤ a², z = 0 where the
radius solve degenerates), and the round trip returns x = 0, an error
of 1/2 > 0.01. -/
theorem coordinate_roundtrip_cex :
    ¬ |(boyerLindquistToCartesian 1 (cartesianToBoyerLindquist 1 (1/2) 0 0).r
        (cartesianToBoyerLindquist 1 (1/2) 0 0).theta
        (cartesianToBoyerLindquist 1 (1/2) 0 0).phi).x - 1 / 2| ≤ 1 / 100 := by
  have hin : Real.sqrt ((9 : ℝ) / 16) = 3 / 4 := by
    rw [show (9 : ℝ) / 16 = (3 / 4) ^ 2 by norm_num, Real.sqrt_sq (by norm_num)]
  have hr0 : blRadius 1 (1/2) 0 0 = 0 := by
    rw [blRadius]
    norm_num [max_def, hin, Real.sqrt_zero]
  have hatan : atan2 0 (1/2) = 0 := by
    show Complex.arg ⟨1/2, 0⟩ = 0
    rw [show (⟨1/2, 0⟩ : ℂ) = ((1/2 : ℝ) : ℂ) from by
      simp [Complex.ext_iff]]
    exact Complex.arg_ofReal_of_nonneg (by norm_num)
  have hbl : cartesianToBoyerLindquist 1 (1/2) 0 0 = ⟨0, 0, 0⟩ := by
    rw [cartesianToBoyerLindquist, if_neg (by norm_num [EPSILON])]
    show (⟨blRadius 1 (1/2) 0 0,
      if blRadius 1 (1/2) 0 0 > EPSILON then
        Real.arccos (max (-1) (min 1 (0 / blRadius 1 (1/2) 0 0))) else 0,
      if atan2 0 (1/2) < 0 then atan2 0 (1/2) + 2 * π else atan2 0 (1/2)⟩ :
        BL) = ⟨0, 0, 0⟩
    rw [hr0, hatan]
    norm_num [EPSILON]
  rw [hbl]
  show ¬ |Real.sqrt (0 * 0 + 1 * 1) * Real.sin 0 * Real.cos 0 - 1 / 2|
    ≤ 1 / 100
  rw [show Real.sqrt (0 * 0 + 1 * 1) * Real.sin 0 * Real.cos 0 - 1 / 2 =
    -(1 / 2) from by rw [Real.sin_zero]; ring]
  rw [abs_neg, abs_of_nonneg (by norm_num)]
  norm_num

/-- **C8** (amended): whenever the computed Boyer-Lindquist radius
exceeds EPSILON, the Cartesian round trip reproduces every component
within 0.01 (exactly, in the Kerr branch; within |a| < 10⁻⁶ in the
Schwarzschild fast path); and below the spin epsilon the forward
transform coincides with the plain spherical conversion. -/
theorem coordinate_roundtrip_amended (a x y z : ℝ)
    (hr : EPSILON < (cartesianToBoyerLindquist a x y z).r) :
    (|(boyerLindquistToCartesian a (cartesianToBoyerLindquist a x y z).r
        (cartesianToBoyerLindquist a x y z).theta
        (cartesianToBoyerLindquist a x y z).phi).x - x| ≤ 1 / 100 ∧
     |(boyerLindquistToCartesian a (cartesianToBoyerLindquist a x y z).r
        (cartesianToBoyerLindquist a x y z).theta
        (cartesianToBoyerLindquist a x y z).phi).y - y| ≤ 1 / 100 ∧
     |(boyerLindquistToCartesian a (cartesianToBoyerLindquist a x y z).r
        (cartesianToBoyerLindquist a x y z).theta
        (cartesianToBoyerLindquist a x y z).phi).z - z| ≤ 1 / 100) ∧
    (|a| < EPSILON →
      cartesianToBoyerLindquist a x y z = sphericalConversionSpec x y z) := by
  constructor
  · by_cases ha : |a| < EPSILON
    · have haE : |a| ≤ 1 / 100 :=
        le_trans (le_of_lt ha) (by norm_num [EPSILON])
      obtain ⟨h1, h2, h3⟩ := roundtrip_sph a x y z ha hr
      exact ⟨le_trans h1 haE, le_trans h2 haE,
        by rw [h3, sub_self, abs_zero]; norm_num⟩
    · have hk := roundtrip_kerr a x y z ha hr
      refine ⟨?_, ?_, ?_⟩
      · rw [hk]
        show |x - x| ≤ 1 / 100
        rw [sub_self, abs_zero]; norm_num
      · rw [hk]
        show |y - y| ≤ 1 / 100
        rw [sub_self, abs_zero]; norm_num
      · rw [hk]
        show |z - z| ≤ 1 / 100
        rw [sub_self, abs_zero]; norm_num
  · intro ha
    rw [cartesianToBoyerLindquist, if_pos ha, sphericalConversionSpec]

/-- **C8 witness**: the round trip at spin 1 through the point (8, 6, 5)
reproduces x within 0.01, and at spin 0 the forward transform equals the
spherical conversion; both hypotheses are discharged concretely. -/
theorem coordinate_roundtrip_amended_witness :
    (EPSILON < (cartesianToBoyerLindquist 1 8 6 5).r ∧
      |(boyerLindquistToCartesian 1 (cartesianToBoyerLindquist 1 8 6 5).r
          (cartesianToBoyerLindquist 1 8 6 5).theta
          (cartesianToBoyerLindquist 1 8 6 5).phi).x - 8| ≤ 1 / 100) ∧
    (EPSILON < (cartesianToBoyerLindquist 0 8 6 5).r ∧
      cartesianToBoyerLindquist 0 8 6 5 = sphericalConversionSpec 8 6 5) := by
  have hr1 : EPSILON < (cartesianToBoyerLindquist 1 8 6 5).r := by
    rw [cartesianToBoyerLindquist, if_neg (by norm_num [EPSILON])]
    show EPSILON < blRadius 1 8 6 5
    calc EPSILON < 1 := by norm_num [EPSILON]
      _ ≤ blRadius 1 8 6 5 := blRadius_ge_one 1 8 6 5 (by norm_num)
  have hr0 : EPSILON < (cartesianToBoyerLindquist 0 8 6 5).r := by
    rw [cartesianToBoyerLindquist, if_pos (by norm_num [EPSILON])]
    show EPSILON < Real.sqrt (8 * 8 + 6 * 6 + 5 * 5)
    calc EPSILON < 1 := by norm_num [EPSILON]
      _ = Real.sqrt 1 := Real.sqrt_one.symm
      _ ≤ Real.sqrt (8 * 8 + 6 * 6 + 5 * 5) := Real.sqrt_le_sqrt (by norm_num)
  exact ⟨⟨hr1, (coordinate_roundtrip_amended 1 8 6 5 hr1).1.1⟩,
    ⟨hr0, (coordinate_roundtrip_amended 0 8 6 5 hr0).2
      (by norm_num [EPSILON])⟩⟩


/-- Clamping into a nonempty interval lands in the interval. -/
lemma glslClamp_bounds (x lo hi : ℝ) (hlohi : lo ≤ hi) :
    lo ≤ glslClamp x lo hi ∧ glslClamp x lo hi ≤ hi :=
  ⟨le_min (le_max_right x lo) hlohi, min_le_right _ _⟩

/-- With `E = 1`, `Lz = 0`, `M = 1`, `a = 0` the position derivatives
collapse to `(pr·r², pθ·r², 0)` independently of θ. -/
lemma geo_flat (r θ pr pθ Q : ℝ) :
    geodesicDerivatives r θ pr pθ 1 0 Q 1 0 = ⟨pr * (r * r), pθ * (r * r), 0⟩ := by
  simp only [geodesicDerivatives, Vec3.mk.injEq]
  refine ⟨by ring, by ring, ?_⟩
  split_ifs with hs
  · norm_num
  · rfl

/-- With `E = 1`, `Lz = 0`, `M = 1`, `a = 0` the momentum derivatives
collapse to `((4r³ - (2r-2)Q)/(2r²)/r², 0)` independently of θ. -/
lemma mom_flat (r θ pr pθ Q : ℝ) :
    momentumDerivatives r θ pr pθ 1 0 Q 1 0 =
      ((4 * r ^ 3 - (2 * r - 2) * Q) / (2 * (r * r)) / (r * r), 0) := by
  simp only [momentumDerivatives, Prod.mk.injEq]
  constructor
  · have e : ∀ x y u : ℝ, x = y → ∀ v, u = v → x / (2 * u) / u = y / (2 * v) / v := by
      intro x y u hxy v huv
      rw [hxy, huv]
    exact e _ _ _ (by ring) _ (by ring)
  · split_ifs with hs
    · norm_num
    · norm_num

/-- The integration loop returns within its fuel (counting RK4 steps)
and never returns the non-terminal status. -/
lemma integrateLoop_spec (E Lz Q M a rH rPh : ℝ) (maxSteps : ℤ)
    (escR stepS : ℝ) (rayDir : Vec3) :
    ∀ fuel : ℕ, ∀ i : ℤ, ∀ s : GeoState, ∀ count : ℕ,
      (integrateLoop E Lz Q M a rH rPh maxSteps escR stepS rayDir
        fuel i s count).steps ≤ count + fuel ∧
      (integrateLoop E Lz Q M a rH rPh maxSteps escR stepS rayDir
        fuel i s count).status ≠ RayStatus.active := by
  intro fuel
  induction fuel with
  | zero =>
    intro i s count
    refine ⟨?_, ?_⟩
    · show count ≤ count + 0
      omega
    · show RayStatus.maxStepsReached ≠ RayStatus.active
      simp
  | succ n ih =>
    intro i s count
    simp only [integrateLoop]
    split_ifs with h1 h2 h3 h4
    · exact ⟨by show count ≤ count + (n + 1); omega,
        by show RayStatus.maxStepsReached ≠ RayStatus.active; simp⟩
    · exact ⟨by show count ≤ count + (n + 1); omega,
        by show RayStatus.captured ≠ RayStatus.active; simp⟩
    · exact ⟨by show count ≤ count + (n + 1); omega,
        by show RayStatus.escaped ≠ RayStatus.active; simp⟩
    · exact ⟨by show count + 1 ≤ count + (n + 1); omega,
        by show RayStatus.captured ≠ RayStatus.active; simp⟩
    · obtain ⟨h5, h6⟩ := ih (i + 1)
        (rk4Step s E Lz Q M a (stepH stepS rH rPh s.r)) (count + 1)
      exact ⟨le_trans h5 (by omega), h6⟩

/-- **C1**: for every camera ray, parameter pair and configuration of
`maxSteps`, `escapeRadius` and `stepSize`, the integrator executes at
most 1000 RK4 steps (regardless of the configured `maxSteps`) and
returns one of the terminal outcomes — never the non-terminal `active`
state. -/
theorem integrator_hard_bounded (camPos rayDir : Vec3) (M a : ℝ)
    (maxSteps : ℤ) (escR stepS : ℝ) :
    (integrateGeodesic camPos rayDir M a maxSteps escR stepS).steps ≤ 1000 ∧
    (integrateGeodesic camPos rayDir M a maxSteps escR stepS).status ≠
      RayStatus.active := by
  obtain ⟨h1, h2⟩ := integrateLoop_spec
    (initGeodesic camPos rayDir M a).2.1
    (initGeodesic camPos rayDir M a).2.2.1
    (initGeodesic camPos rayDir M a).2.2.2 M a
    (eventHorizonRadius M a) (photonSphereRadius M a) maxSteps
    escR stepS rayDir 1000 0 (initGeodesic camPos rayDir M a).1 0
  exact ⟨by simpa using h1, h2⟩

/-- **C9**: the geodesic initializer clamps θ into `[0.01, π - 0.01]`
and every RK4 step re-clamps it into `[0.001, π - 0.001]`, so the polar
angle of every observed state lies in `[0.001, π - 0.001]` and its sine
is strictly positive. -/
theorem theta_clamped_invariant (camPos rayDir : Vec3) (M a : ℝ)
    (s : GeoState) (E Lz Q h : ℝ) :
    (0.001 ≤ (initGeodesic camPos rayDir M a).1.theta ∧
      (initGeodesic camPos rayDir M a).1.theta ≤ π - 0.001 ∧
      0 < Real.sin ((initGeodesic camPos rayDir M a).1.theta)) ∧
    (0.001 ≤ (rk4Step s E Lz Q M a h).theta ∧
      (rk4Step s E Lz Q M a h).theta ≤ π - 0.001 ∧
      0 < Real.sin ((rk4Step s E Lz Q M a h).theta)) := by
  have hpi := Real.pi_gt_three
  constructor
  · have h1 : (initGeodesic camPos rayDir M a).1.theta =
        glslClamp (cartesianToBoyerLindquistG camPos a).theta 0.01 (π - 0.01) :=
      rfl
    obtain ⟨hl, hu⟩ := glslClamp_bounds
      (cartesianToBoyerLindquistG camPos a).theta 0.01 (π - 0.01)
      (by norm_num; linarith)
    rw [h1]
    refine ⟨by norm_num; linarith, by linarith, ?_⟩
    apply Real.sin_pos_of_pos_of_lt_pi
    · norm_num at hl ⊢
      linarith
    · linarith
  · obtain ⟨t, ht⟩ : ∃ t : ℝ, (rk4Step s E Lz Q M a h).theta =
        glslClamp t 0.001 (π - 0.001) := ⟨_, rfl⟩
    obtain ⟨hl, hu⟩ := glslClamp_bounds t 0.001 (π - 0.001)
      (by norm_num; linarith)
    rw [ht]
    refine ⟨hl, hu, ?_⟩
    apply Real.sin_pos_of_pos_of_lt_pi
    · norm_num at hl ⊢
      linarith
    · linarith

/-- **C5**: a full step equals the plain RK4 update in every position
component, and in the momenta exactly up to the turning-point sign
flips: `pr` is negated precisely when `R(r) < 0` at the updated state,
`pθ` precisely when `Θ(θ) < 0`, and nothing else is modified; the check
is total (no error path). -/
theorem rk4Step_turning_point_flips (s : GeoState) (E Lz Q M a h : ℝ) :
    (rk4Step s E Lz Q M a h).r = (rk4Update s E Lz Q M a h).r ∧
    (rk4Step s E Lz Q M a h).theta = (rk4Update s E Lz Q M a h).theta ∧
    (rk4Step s E Lz Q M a h).phi = (rk4Update s E Lz Q M a h).phi ∧
    ((rk4Step s E Lz Q M a h).pr =
      if R_potential (rk4Update s E Lz Q M a h).r E Lz Q M a < 0
      then -(rk4Update s E Lz Q M a h).pr
      else (rk4Update s E Lz Q M a h).pr) ∧
    ((rk4Step s E Lz Q M a h).ptheta =
      if Theta_potential (rk4Update s E Lz Q M a h).theta E Lz Q a < 0
      then -(rk4Update s E Lz Q M a h).ptheta
      else (rk4Update s E Lz Q M a h).ptheta) :=
  ⟨rfl, rfl, rfl, rfl, rfl⟩

/-- **C4**: within the loop, a radius below `eventHorizon·1.001`
terminates the ray as captured; and when the RK4 step produces a
negative radius (or one failing the source's literal NaN self-equality
test) the ray is likewise terminated as captured rather than erroring. -/
theorem capture_on_horizon_or_invalid_r (E Lz Q M a : ℝ) (maxSteps : ℤ)
    (escR stepS : ℝ) (rayDir : Vec3) (fuel : ℕ) (i : ℤ) (s : GeoState)
    (count : ℕ) (hi : i < maxSteps) :
    (s.r < eventHorizonRadius M a * 1.001 →
      (integrateLoop E Lz Q M a (eventHorizonRadius M a)
        (photonSphereRadius M a) maxSteps escR stepS rayDir
        (fuel + 1) i s count).status = RayStatus.captured) ∧
    (¬ s.r < eventHorizonRadius M a * 1.001 → ¬ s.r > escR →
      ((rk4Step s E Lz Q M a (stepH stepS (eventHorizonRadius M a)
          (photonSphereRadius M a) s.r)).r < 0 ∨
        (rk4Step s E Lz Q M a (stepH stepS (eventHorizonRadius M a)
          (photonSphereRadius M a) s.r)).r ≠
        (rk4Step s E Lz Q M a (stepH stepS (eventHorizonRadius M a)
          (photonSphereRadius M a) s.r)).r) →
      (integrateLoop E Lz Q M a (eventHorizonRadius M a)
        (photonSphereRadius M a) maxSteps escR stepS rayDir
        (fuel + 1) i s count).status = RayStatus.captured) := by
  constructor
  · intro hcap
    simp only [integrateLoop]
    rw [if_neg (by omega : ¬ i ≥ maxSteps), if_pos hcap]
  · intro h1 h2 h3
    simp only [integrateLoop]
    rw [if_neg (by omega : ¬ i ≥ maxSteps), if_neg h1, if_neg h2, if_pos h3]

/-- **C4 witness**: at `(M, a) = (1, 0)` a state at radius 0 is
captured immediately, and from radius 10 with inward momentum
`pr = -1` (`E = 1`, `Lz = Q = 0`, `θ = π/2`, step 1) the RK4 step
overshoots to a negative radius and the ray is captured. -/
theorem capture_on_horizon_or_invalid_r_witness :
    ((0 : ℤ) < 10 ∧
      ((⟨0, 0, 0, 0, 0⟩ : GeoState)).r < eventHorizonRadius 1 0 * 1.001 ∧
      (integrateLoop 1 0 0 1 0 (eventHorizonRadius 1 0)
        (photonSphereRadius 1 0) 10 100 1 ⟨0, 0, 1⟩ 1 0
        ⟨0, 0, 0, 0, 0⟩ 0).status = RayStatus.captured) ∧
    (¬ ((⟨10, π / 2, 0, -1, 0⟩ : GeoState)).r <
        eventHorizonRadius 1 0 * 1.001 ∧
      (rk4Step ⟨10, π / 2, 0, -1, 0⟩ 1 0 0 1 0
        (stepH 1 (eventHorizonRadius 1 0) (photonSphereRadius 1 0)
          ((⟨10, π / 2, 0, -1, 0⟩ : GeoState)).r)).r < 0 ∧
      (integrateLoop 1 0 0 1 0 (eventHorizonRadius 1 0)
        (photonSphereRadius 1 0) 10 100 1 ⟨0, 0, 1⟩ 1 0
        ⟨10, π / 2, 0, -1, 0⟩ 0).status = RayStatus.captured) := by
  have hrH : eventHorizonRadius 1 0 = 2 := by
    rw [eventHorizonRadius]
    norm_num [Real.sqrt_one]
  have hph : photonSphereRadius 1 0 = 3 := by
    rw [photonSphereRadius, if_pos (by norm_num [EPSILON])]
    norm_num
  have habs7 : |(10 : ℝ) - 3| = 7 := by
    rw [show (10 : ℝ) - 3 = 7 by norm_num]
    exact abs_of_nonneg (by norm_num)
  have hstep : stepH 1 (eventHorizonRadius 1 0) (photonSphereRadius 1 0)
      ((⟨10, π / 2, 0, -1, 0⟩ : GeoState)).r = 1 := by
    rw [hrH, hph]
    show stepH 1 2 3 10 = 1
    rw [stepH, glslClamp]
    rw [if_neg (by rw [habs7]; norm_num)]
    norm_num [max_def, min_def]
  have hrk : (rk4Step ⟨10, π / 2, 0, -1, 0⟩ 1 0 0 1 0
      (stepH 1 (eventHorizonRadius 1 0) (photonSphereRadius 1 0)
        ((⟨10, π / 2, 0, -1, 0⟩ : GeoState)).r)).r < 0 := by
    rw [hstep]
    simp only [rk4Step, geo_flat, mom_flat]
    norm_num
  have h0 : ((⟨0, 0, 0, 0, 0⟩ : GeoState)).r <
      eventHorizonRadius 1 0 * 1.001 := by
    rw [hrH]
    show (0 : ℝ) < 2 * 1.001
    norm_num
  have h10 : ¬ ((⟨10, π / 2, 0, -1, 0⟩ : GeoState)).r <
      eventHorizonRadius 1 0 * 1.001 := by
    rw [hrH]
    show ¬ (10 : ℝ) < 2 * 1.001
    norm_num
  refine ⟨⟨by norm_num, h0, ?_⟩, ⟨h10, hrk, ?_⟩⟩
  · exact (capture_on_horizon_or_invalid_r 1 0 0 1 0 10 100 1 ⟨0, 0, 1⟩
      0 0 ⟨0, 0, 0, 0, 0⟩ 0 (by norm_num)).1 h0
  · exact (capture_on_horizon_or_invalid_r 1 0 0 1 0 10 100 1 ⟨0, 0, 1⟩
      0 0 ⟨10, π / 2, 0, -1, 0⟩ 0 (by norm_num)).2 h10
      (by show ¬ (10 : ℝ) > 100; norm_num) (Or.inl hrk)

end
